import Mathlib

/-!
Verification of the `wasearch` chat-log tool (`src/wasearch.py`).

Shallow embedding conventions:
* Python strings are modelled as `List Char`; `'x' in s` is `hasSub`;
  `s.split(' ', 1)[0]` is `takeBeforeSpace`; `html.escape` (stdlib) is the
  character-wise `htmlEscape`.
* UTC instants are modelled as integers (minutes since an arbitrary epoch).
  The SQLite store keeps ISO-8601 UTC strings whose lexicographic order,
  for the uniform export format, coincides with chronological order, so the
  string comparisons of `search_chats_by_date` are modelled as integer
  comparisons.
* A timezone (Python `zoneinfo.ZoneInfo`) is modelled by its two conversion
  functions: wall-clock local time to UTC (used for the window boundaries,
  `astimezone(utc)` on an aware local datetime) and UTC to local wall-clock
  time (used by `format_messages_for_display`).
* The interactive / filesystem effects of the script are modelled by
  explicit parameters (does the db file exist, the user's reply, does the
  write succeed) and an explicit result record or event trace.
-/

/-! ### Characters and small string utilities -/

def spChar : Char := Char.ofNat 32

def nlChar : Char := Char.ofNat 10

def aposChar : Char := Char.ofNat 39

def quotChar : Char := Char.ofNat 34

def strMe : List Char := "Me".data

def strThem : List Char := "Them".data

def strUnknown : List Char := "Unknown Sender".data

def marker : List Char := "@s.whatsapp.net".data

/-- `startsWithL p t` : the pattern `p` is a prefix of the text `t`. -/
def startsWithL : List Char → List Char → Bool
  | [], _ => true
  | _ :: _, [] => false
  | p :: ps, t :: ts => p == t && startsWithL ps ts

/-- Python's substring test `p in t`. -/
def hasSub (p : List Char) : List Char → Bool
  | [] => p.isEmpty
  | c :: ts => startsWithL p (c :: ts) || hasSub p ts

/-- Python's `s.split(' ', 1)[0]`: everything before the first space
(the whole string when there is no space). -/
def takeBeforeSpace (s : List Char) : List Char :=
  s.takeWhile (fun c => c != spChar)

/-! ### Sender-name resolution (src/wasearch.py lines 79-83) -/

/-- Python truthiness of an optional string: `None` and `""` are falsy. -/
def truthyS : Option (List Char) → Bool
  | none => false
  | some s => !s.isEmpty

/-- Embedding of the sender-name computation of `convert_json_to_sqlite`
(lines 79-83):
```
sender_name = 'Me' if from_me else (message.get('remoteResourceDisplayName')
                                    if is_group_chat else contact_name)
if not from_me and sender_name:
    if '@s.whatsapp.net' in sender_name: sender_name = 'Them'
    elif ' ' in sender_name: sender_name = sender_name.split(' ', 1)[0]
elif not sender_name: sender_name = 'Unknown Sender'
```
-/
def resolveSender (from_me is_group_chat : Bool) (contactName : List Char)
    (remoteResourceDisplayName : Option (List Char)) : List Char :=
  let sn : Option (List Char) :=
    if from_me then some strMe
    else if is_group_chat then remoteResourceDisplayName else some contactName
  if !from_me && truthyS sn then
    let s := sn.getD []
    if hasSub marker s then strThem
    else if s.contains spChar then takeBeforeSpace s
    else s
  else if !(truthyS sn) then strUnknown
  else sn.getD []

/-- C2: sender-name resolution is the pure function of
`(from_me, is_group_chat, contactName, remoteResourceDisplayName)` described
by the spec: `from_me = true` gives `"Me"`; otherwise the candidate (the
per-message display name for group chats, the chat's contact name for direct
chats) gives `"Unknown Sender"` when absent or empty, `"Them"` when it
contains the `@s.whatsapp.net` marker, its first space-separated word when it
contains a space, and itself when it is a single word. -/
theorem c2_sender_resolution :
    (∀ g c r, resolveSender true g c r = strMe) ∧
    (∀ g c r, ((if g then r else some c) = none ∨ (if g then r else some c) = some ([] : List Char)) →
      resolveSender false g c r = strUnknown) ∧
    (∀ g c r s, (if g then r else some c) = some s → s ≠ [] → hasSub marker s = true →
      resolveSender false g c r = strThem) ∧
    (∀ g c r s, (if g then r else some c) = some s → s ≠ [] → hasSub marker s = false →
      s.contains spChar = true → resolveSender false g c r = takeBeforeSpace s) ∧
    (∀ g c r s, (if g then r else some c) = some s → s ≠ [] → hasSub marker s = false →
      s.contains spChar = false → resolveSender false g c r = s) := by
  refine ⟨?_, ?_, ?_, ?_, ?_⟩
  · intro g c r
    simp [resolveSender, truthyS]
    intro h
    exact absurd h (by decide)
  · intro g c r h
    rcases h with h | h <;>
      simp [resolveSender, h, truthyS]
  · intro g c r s h hne hm
    simp [resolveSender, h, truthyS, List.isEmpty_iff, hne, hm]
  · intro g c r s h hne hm hsp
    have hsp2 : spChar ∈ s := by simpa using hsp
    simp [resolveSender, h, truthyS, List.isEmpty_iff, hne, hm, hsp2]
  · intro g c r s h hne hm hsp
    have hsp2 : spChar ∉ s := by simpa using hsp
    simp [resolveSender, h, truthyS, List.isEmpty_iff, hne, hm, hsp2]

def sampleTwoWords : List Char := "John Quincy".data

def sampleOneWord : List Char := "Johnny".data

def sampleAddr : List Char := "5215512345678@s.whatsapp.net".data

/-- Witness for C2 at concrete inputs, one per case of the cascade. -/
theorem c2_sender_resolution_witness :
    resolveSender true true [] none = strMe ∧
    resolveSender false true [] none = strUnknown ∧
    resolveSender false true [] (some sampleAddr) = strThem ∧
    resolveSender false true [] (some sampleTwoWords) = takeBeforeSpace sampleTwoWords ∧
    resolveSender false false sampleOneWord none = sampleOneWord :=
  ⟨c2_sender_resolution.1 true [] none,
   c2_sender_resolution.2.1 true [] none (by decide),
   c2_sender_resolution.2.2.1 true [] (some sampleAddr) sampleAddr (by decide) (by decide) (by decide),
   c2_sender_resolution.2.2.2.1 true [] (some sampleTwoWords) sampleTwoWords (by decide) (by decide)
     (by decide) (by decide),
   c2_sender_resolution.2.2.2.2 false sampleOneWord none sampleOneWord (by decide) (by decide)
     (by decide) (by decide)⟩

/-! ### Ingestion: `convert_json_to_sqlite` (src/wasearch.py lines 27-95) -/

def textLit : List Char := "text".data

def groupSuffix : List Char := "@g.us".data

def yesStr : List Char := "y".data

/-- Python's `str.endswith`. -/
def endsWithL (suffix s : List Char) : Bool :=
  startsWithL suffix.reverse s.reverse

/-- A raw message object of the input JSON document. `none` models an absent
key (`message.get(k)` gives `None`, `message[k]` raises `KeyError`). -/
structure InMessage where
  mtype : Option (List Char)
  text : Option (List Char)
  timestamp : Option (List Char)
  fromMe : Option Bool
  remoteResourceDisplayName : Option (List Char)
deriving DecidableEq

/-- A raw chat object of the input JSON document. -/
structure InChat where
  contactName : Option (List Char)
  key : Option (List Char)
  messages : List InMessage
deriving DecidableEq

/-- The input JSON document (`data.get('chats', [])`). -/
structure InDoc where
  chats : List InChat
deriving DecidableEq

/-- A row of the `messages` table created by the conversion.  The timestamp
is kept as the raw string taken verbatim from the input. -/
structure StoredRow where
  contact_name : List Char
  timestamp : List Char
  from_me : Bool
  sender_name : List Char
  text : List Char
deriving DecidableEq

/-- Rows inserted for one raw message (lines 74-91): only messages with
`type == 'text'` and a `text` key are admitted; a missing `timestamp`
raises `KeyError`, which is caught and the message skipped. -/
def msgRows (contact : List Char) (isGroup : Bool) (m : InMessage) : List StoredRow :=
  if m.mtype = some textLit ∧ m.text.isSome then
    match m.timestamp with
    | none => []
    | some ts =>
      let fm := m.fromMe.getD false
      [{ contact_name := contact, timestamp := ts, from_me := fm,
         sender_name := resolveSender fm isGroup contact m.remoteResourceDisplayName,
         text := m.text.getD [] }]
  else []

/-- Rows inserted for one chat (lines 69-91): chats with a falsy
`contactName` are skipped entirely; group chats are those whose key ends
with `@g.us`. -/
def chatRows (c : InChat) : List StoredRow :=
  match c.contactName with
  | none => []
  | some name =>
    if name = [] then []
    else c.messages.flatMap (msgRows name (endsWithL groupSuffix (c.key.getD [])))

/-- All rows inserted by one conversion run, in insertion order. -/
def convertRows (d : InDoc) : List StoredRow :=
  d.chats.flatMap chatRows

/-! ### Conversion front-end as an event trace (lines 34-57) -/

/-- Observable events of a conversion run, in order. -/
inductive ConvEvent where
  | promptOverwrite
  | exitSuccess
  | exitFailure
  | removeDb
  | loadJson
  | createDb (rows : List StoredRow)
deriving DecidableEq

/-- `input(...).lower().strip() == 'y'`. -/
def pyLower (s : List Char) : List Char := s.map Char.toLower

def isWsChar (c : Char) : Bool :=
  c == spChar || c == Char.ofNat 9 || c == nlChar || c == Char.ofNat 13 ||
    c == Char.ofNat 11 || c == Char.ofNat 12

def pyStrip (s : List Char) : List Char :=
  ((s.dropWhile isWsChar).reverse.dropWhile isWsChar).reverse

def acceptsOverwrite (resp : List Char) : Bool :=
  pyStrip (pyLower resp) = yesStr

/-- Events after the overwrite check: load the JSON (exit non-zero on
failure), then create the database and insert all rows. -/
def convertTail (jsonOk : Bool) (d : InDoc) : List ConvEvent :=
  if jsonOk then [ConvEvent.loadJson, ConvEvent.createDb (convertRows d)]
  else [ConvEvent.loadJson, ConvEvent.exitFailure]

/-- Event trace of `convert_json_to_sqlite`, parameterised by the relevant
environment facts: whether the output db file already exists, the user's
reply to the overwrite prompt, whether `os.remove` succeeds, whether the
JSON file loads. -/
def convertTrace (dbExists : Bool) (resp : List Char) (removeOk jsonOk : Bool)
    (d : InDoc) : List ConvEvent :=
  if dbExists then
    if acceptsOverwrite resp = false then
      [ConvEvent.promptOverwrite, ConvEvent.exitSuccess]
    else if removeOk then
      ConvEvent.promptOverwrite :: ConvEvent.removeDb :: convertTail jsonOk d
    else [ConvEvent.promptOverwrite, ConvEvent.exitFailure]
  else convertTail jsonOk d

/-- C8: with an existing output store the conversion asks for confirmation
first; declining ends the run with a success exit and neither removes nor
writes the store; accepting removes the prior store before any write of the
new one. -/
theorem c8_overwrite_confirmation (resp : List Char) (removeOk jsonOk : Bool) (d : InDoc) :
    (convertTrace true resp removeOk jsonOk d).head? = some ConvEvent.promptOverwrite ∧
    (acceptsOverwrite resp = false →
      convertTrace true resp removeOk jsonOk d = [ConvEvent.promptOverwrite, ConvEvent.exitSuccess] ∧
      ConvEvent.removeDb ∉ convertTrace true resp removeOk jsonOk d ∧
      (∀ rows, ConvEvent.createDb rows ∉ convertTrace true resp removeOk jsonOk d)) ∧
    (acceptsOverwrite resp = true → removeOk = true →
      convertTrace true resp removeOk jsonOk d =
        ConvEvent.promptOverwrite :: ConvEvent.removeDb :: convertTail jsonOk d ∧
      (∀ n rows, (convertTrace true resp removeOk jsonOk d).get? n = some (ConvEvent.createDb rows) →
        ∃ k, k < n ∧ (convertTrace true resp removeOk jsonOk d).get? k = some ConvEvent.removeDb)) := by
  refine ⟨?_, ?_, ?_⟩
  · by_cases ha : acceptsOverwrite resp = false
    · simp [convertTrace, ha]
    · by_cases hr : removeOk = true <;>
        simp [convertTrace, ha, hr]
  · intro ha
    simp [convertTrace, ha]
  · intro ha hr
    constructor
    · simp [convertTrace, ha, hr]
    · intro n rows hn
      refine ⟨1, ?_, ?_⟩
      · rcases n with _ | n
        · simp [convertTrace, ha, hr] at hn
        · rcases n with _ | n
          · simp [convertTrace, ha, hr] at hn
          · omega
      · simp [convertTrace, ha, hr]

def wResp : List Char := "n".data

/-- Witness for C8 at a concrete declining and a concrete accepting run. -/
theorem c8_overwrite_confirmation_witness :
    ((convertTrace true wResp true true { chats := [] }).head? = some ConvEvent.promptOverwrite ∧
      convertTrace true wResp true true { chats := [] } =
        [ConvEvent.promptOverwrite, ConvEvent.exitSuccess]) ∧
    convertTrace true yesStr true true { chats := [] } =
      ConvEvent.promptOverwrite :: ConvEvent.removeDb :: convertTail true { chats := [] } :=
  ⟨⟨(c8_overwrite_confirmation wResp true true { chats := [] }).1,
    ((c8_overwrite_confirmation wResp true true { chats := [] }).2.1 (by decide)).1⟩,
   ((c8_overwrite_confirmation yesStr true true { chats := [] }).2.2 (by decide) rfl).1⟩

/-! ### C7: shape of the stored rows -/

def cexDoc7 : InDoc :=
  { chats := [ { contactName := some sampleOneWord, key := none,
                 messages := [ { mtype := some textLit, text := some [],
                                 timestamp := some textLit, fromMe := some true,
                                 remoteResourceDisplayName := none } ] } ] }

/-- C7 counterexample: the conversion admits a message whose `text` value is
the empty string (`'text' in message` only tests key presence), so a stored
row can have an empty `text`. -/
theorem c7_counterexample :
    ∃ r ∈ convertRows cexDoc7, r.text = [] := by
  decide

/-- C7 as amended: every stored row has a non-empty `contact_name`, and its
`contact_name`, `timestamp` and `text` are taken verbatim from one input
chat/message pair (in particular the raw UTC timestamp string is preserved
exactly); the `text` may be empty. -/
theorem c7_stored_row_shape (d : InDoc) (r : StoredRow) (hr : r ∈ convertRows d) :
    r.contact_name ≠ [] ∧
    ∃ c ∈ d.chats, ∃ m ∈ c.messages,
      c.contactName = some r.contact_name ∧
      m.timestamp = some r.timestamp ∧
      m.text = some r.text := by
  rcases List.mem_flatMap.mp hr with ⟨c, hc, hrc⟩
  rcases hcn : c.contactName with _ | name
  · simp only [chatRows, hcn] at hrc
    simp at hrc
  · simp only [chatRows, hcn] at hrc
    by_cases hne : name = []
    · simp [hne] at hrc
    · rw [if_neg hne] at hrc
      rcases List.mem_flatMap.mp hrc with ⟨m, hm, hrm⟩
      by_cases hadm : m.mtype = some textLit ∧ m.text.isSome
      · rcases hts : m.timestamp with _ | ts
        · simp only [msgRows, if_pos hadm, hts] at hrm
          simp at hrm
        · simp only [msgRows, if_pos hadm, hts] at hrm
          simp at hrm
          subst hrm
          refine ⟨hne, c, hc, m, hm, hcn, hts, ?_⟩
          rcases htx : m.text with _ | tx
          · rw [htx] at hadm
            simp at hadm
          · simp [htx]
      · simp only [msgRows, if_neg hadm] at hrm
        simp at hrm

def wDoc7 : InDoc :=
  { chats := [ { contactName := some sampleOneWord, key := none,
                 messages := [ { mtype := some textLit, text := some textLit,
                                 timestamp := some sampleTwoWords, fromMe := none,
                                 remoteResourceDisplayName := none } ] } ] }

def wRow7 : StoredRow :=
  { contact_name := sampleOneWord, timestamp := sampleTwoWords,
    from_me := false, sender_name := sampleOneWord, text := textLit }

/-- Witness for the amended C7 at a concrete document and its stored row. -/
theorem c7_stored_row_shape_witness :
    wRow7 ∈ convertRows wDoc7 ∧
    (wRow7.contact_name ≠ [] ∧
      ∃ c ∈ wDoc7.chats, ∃ m ∈ c.messages,
        c.contactName = some wRow7.contact_name ∧
        m.timestamp = some wRow7.timestamp ∧
        m.text = some wRow7.text) :=
  ⟨by decide, c7_stored_row_shape wDoc7 wRow7 (by decide)⟩

/-! ### Dates and timezones (`search_chats_by_date`, lines 114-141) -/

/-- A timezone, modelled by its two wall-clock conversions (minutes).
`localToUTC` is what `aware_local.astimezone(utc)` computes for a wall-clock
local instant; `utcToLocal` is what `utc_time.astimezone(tz_info)` computes
for a UTC instant. -/
structure Tz where
  localToUTC : Int → Int
  utcToLocal : Int → Int

/-- A calendar date, as parsed by `datetime.strptime(s, '%Y-%m-%d')`. -/
structure Ymd where
  year : Int
  month : Int
  day : Int
deriving DecidableEq

/-- Day number of a civil date (days since 1970-01-01, Gregorian,
Hinnant's `days_from_civil`). -/
def daysFromCivil (date : Ymd) : Int :=
  let y := if date.month ≤ 2 then date.year - 1 else date.year
  let era := Int.fdiv y 400
  let yoe := y - era * 400
  let mp := Int.fmod (date.month + 9) 12
  let doy := Int.fdiv (153 * mp + 2) 5 + date.day - 1
  let doe := yoe * 365 + Int.fdiv yoe 4 - Int.fdiv yoe 100 + doy
  era * 146097 + doe - 719468

/-- Civil date of a day number (Hinnant's `civil_from_days`). -/
def civilFromDays (z0 : Int) : Ymd :=
  let z := z0 + 719468
  let era := Int.fdiv z 146097
  let doe := z - era * 146097
  let yoe := Int.fdiv (doe - Int.fdiv doe 1460 + Int.fdiv doe 36524 - Int.fdiv doe 146096) 365
  let y := yoe + era * 400
  let doy := doe - (365 * yoe + Int.fdiv yoe 4 - Int.fdiv yoe 100)
  let mp := Int.fdiv (5 * doy + 2) 153
  let dd := doy - Int.fdiv (153 * mp + 2) 5 + 1
  let mm := if mp < 10 then mp + 3 else mp - 9
  { year := if mm ≤ 2 then y + 1 else y, month := mm, day := dd }

/-- Local wall-clock midnight of the target date, in minutes:
`start_local = search_date_obj.replace(tzinfo=local_tz)` (line 128). -/
def startLocalOf (date : Ymd) : Int :=
  daysFromCivil date * 1440

/-- The three windows of line 131-141, already converted to UTC. -/
structure UtcWindows where
  prevLo : Int
  prevHi : Int
  curLo : Int
  curHi : Int
  nextLo : Int
  nextHi : Int
deriving DecidableEq

/-- `windows` and `utc_windows` of lines 131-141: half-open local-day windows
`prev = [start-1d, start)`, `current = [start, end)`, `next = [end, end+1d)`
with `end = start + 1 day` (wall-clock `timedelta` arithmetic), each boundary
converted to UTC. -/
def utcWindows (tz : Tz) (date : Ymd) : UtcWindows :=
  let startLocal := startLocalOf date
  let endLocal := startLocal + 1440
  { prevLo := tz.localToUTC (startLocal - 1440)
    prevHi := tz.localToUTC startLocal
    curLo := tz.localToUTC startLocal
    curHi := tz.localToUTC endLocal
    nextLo := tz.localToUTC endLocal
    nextHi := tz.localToUTC (endLocal + 1440) }

/-- Half-open window membership test, `lo <= ts < hi` (string comparison in
the source, chronological comparison in the model). -/
def inWin (lo hi t : Int) : Bool :=
  decide (lo ≤ t) && decide (t < hi)

def inPrevW (w : UtcWindows) (t : Int) : Bool := inWin w.prevLo w.prevHi t

def inCurW (w : UtcWindows) (t : Int) : Bool := inWin w.curLo w.curHi t

def inNextW (w : UtcWindows) (t : Int) : Bool := inWin w.nextLo w.nextHi t

inductive Bucket where
  | prev
  | current
  | next
deriving DecidableEq

/-- The `if/elif/elif` bucketing of lines 159-163: first matching window
wins, a timestamp in no window is dropped. -/
def bucketOf (w : UtcWindows) (t : Int) : Option Bucket :=
  if inPrevW w t then some Bucket.prev
  else if inCurW w t then some Bucket.current
  else if inNextW w t then some Bucket.next
  else none

/-- C1: the search uses local midnight of the target date as `start_local`,
`end_local = start_local + 1 day`, the three half-open windows
`prev = [start_local - 1d, start_local)`, `current = [start_local, end_local)`,
`next = [end_local, end_local + 1d)` converted to UTC, and buckets messages
by UTC timestamp so that a message at exactly local midnight of the target
date lands in `current` (not `prev`) and a message at exactly local midnight
of the next day lands in `next` (not `current`); the hypotheses (local
midnights map to strictly increasing UTC instants) hold for any real
timezone, in particular across a DST transition (see the witness). -/
theorem c1_half_open_windows (tz : Tz) (date : Ymd) :
    ((utcWindows tz date).prevLo = tz.localToUTC (startLocalOf date - 1440) ∧
     (utcWindows tz date).prevHi = tz.localToUTC (startLocalOf date) ∧
     (utcWindows tz date).curLo = tz.localToUTC (startLocalOf date) ∧
     (utcWindows tz date).curHi = tz.localToUTC (startLocalOf date + 1440) ∧
     (utcWindows tz date).nextLo = tz.localToUTC (startLocalOf date + 1440) ∧
     (utcWindows tz date).nextHi = tz.localToUTC (startLocalOf date + 1440 + 1440)) ∧
    (tz.localToUTC (startLocalOf date) < tz.localToUTC (startLocalOf date + 1440) →
      bucketOf (utcWindows tz date) (tz.localToUTC (startLocalOf date)) = some Bucket.current) ∧
    (tz.localToUTC (startLocalOf date) ≤ tz.localToUTC (startLocalOf date + 1440) →
      tz.localToUTC (startLocalOf date + 1440) < tz.localToUTC (startLocalOf date + 1440 + 1440) →
      bucketOf (utcWindows tz date) (tz.localToUTC (startLocalOf date + 1440)) = some Bucket.next) := by
  refine ⟨⟨rfl, rfl, rfl, rfl, rfl, rfl⟩, ?_, ?_⟩
  · intro h
    simp [bucketOf, inPrevW, inCurW, inNextW, inWin, utcWindows, h]
  · intro h1 h2
    have h3 : ¬ tz.localToUTC (startLocalOf date + 1440) < tz.localToUTC (startLocalOf date) :=
      not_lt.mpr h1
    simp [bucketOf, inPrevW, inCurW, inNextW, inWin, utcWindows, h2, h3]

/-- 2022-04-03, the date of a spring-forward DST transition of
America/Mexico_City (UTC-6 to UTC-5 at 02:00 local). -/
def dstDate : Ymd := { year := 2022, month := 4, day := 3 }

/-- Local wall-clock minute of that transition. -/
def dstSwitchLocal : Int := startLocalOf dstDate + 120

/-- America/Mexico_City around that transition: UTC offset -360 minutes
before 02:00 local on the transition day, -300 minutes after. -/
def mexTz : Tz :=
  { localToUTC := fun l => if l < dstSwitchLocal then l + 360 else l + 300
    utcToLocal := fun u => if u < dstSwitchLocal + 360 then u - 360 else u - 300 }

/-- Witness for C1 on the DST-transition date: the transition day is 23
hours long, and both midnight-boundary memberships hold. -/
theorem c1_half_open_windows_witness :
    (mexTz.localToUTC (startLocalOf dstDate) < mexTz.localToUTC (startLocalOf dstDate + 1440) ∧
      mexTz.localToUTC (startLocalOf dstDate + 1440) - mexTz.localToUTC (startLocalOf dstDate) = 1380) ∧
    bucketOf (utcWindows mexTz dstDate) (mexTz.localToUTC (startLocalOf dstDate)) = some Bucket.current ∧
    bucketOf (utcWindows mexTz dstDate) (mexTz.localToUTC (startLocalOf dstDate + 1440)) = some Bucket.next :=
  ⟨⟨by decide, by decide⟩,
   (c1_half_open_windows mexTz dstDate).2.1 (by decide),
   (c1_half_open_windows mexTz dstDate).2.2 (by decide) (by decide)⟩

/-! ### Fetched rows and the conversation assembler (lines 143-166) -/

/-- A row of the range query's result set.  The timestamp is the UTC
instant (see the header on the string/instant abstraction). -/
structure Row where
  contact_name : List Char
  timestamp : Int
  from_me : Bool
  sender_name : List Char
  text : List Char
deriving DecidableEq

/-- The per-contact value of the `all_conversations` dict (line 157). -/
structure ConvData where
  prev : List Row
  current : List Row
  next : List Row
  firstCurrent : Option Int
deriving DecidableEq

def emptyConv : ConvData :=
  { prev := [], current := [], next := [], firstCurrent := none }

/-- Lines 159-163, for one row: append it to the bucket selected by the
`if/elif/elif` chain (`bucketOf`), recording the first `current` timestamp. -/
def addRow (w : UtcWindows) (d : ConvData) (r : Row) : ConvData :=
  match bucketOf w r.timestamp with
  | some Bucket.prev => { d with prev := d.prev ++ [r] }
  | some Bucket.current =>
    { d with current := d.current ++ [r],
             firstCurrent := match d.firstCurrent with
               | none => some r.timestamp
               | some t => some t }
  | some Bucket.next => { d with next := d.next ++ [r] }
  | none => d

/-- Line 156-157: create the contact's (insertion-ordered) dict entry if it
is not present yet. -/
def ensureKey (k : List Char) (m : List (List Char × ConvData)) :
    List (List Char × ConvData) :=
  if (m.map Prod.fst).contains k then m else m ++ [(k, emptyConv)]

/-- In-place update of the contact's dict entry. -/
def updateKey (w : UtcWindows) (r : Row) :
    List (List Char × ConvData) → List (List Char × ConvData)
  | [] => []
  | p :: rest =>
    if p.1 = r.contact_name then (p.1, addRow w p.2 r) :: rest
    else p :: updateKey w r rest

def stepRow (w : UtcWindows) (m : List (List Char × ConvData)) (r : Row) :
    List (List Char × ConvData) :=
  updateKey w r (ensureKey r.contact_name m)

/-- The `all_conversations` insertion-ordered dict after the loop of
lines 153-163. -/
def assembleConvs (w : UtcWindows) (rows : List Row) :
    List (List Char × ConvData) :=
  rows.foldl (stepRow w) []

/-- The distinct contact names of the result set, in first-appearance
order (= dict key order). -/
def contactsIn (rows : List Row) : List (List Char) :=
  rows.foldl
    (fun acc r => if acc.contains r.contact_name then acc else acc ++ [r.contact_name]) []

/-- All of one contact's fetched rows, folded through `addRow`. -/
def groupFold (w : UtcWindows) (rows : List Row) (c : List Char) : ConvData :=
  (rows.filter (fun r => decide (r.contact_name = c))).foldl (addRow w) emptyConv

theorem contactsIn_append (rows : List Row) (r : Row) :
    contactsIn (rows ++ [r]) =
      if (contactsIn rows).contains r.contact_name then contactsIn rows
      else contactsIn rows ++ [r.contact_name] := by
  simp [contactsIn, List.foldl_append]

theorem mem_contactsIn (rows : List Row) (c : List Char) :
    c ∈ contactsIn rows ↔ ∃ r ∈ rows, r.contact_name = c := by
  induction rows using List.reverseRecOn with
  | nil => simp [contactsIn]
  | append_singleton rows r ih =>
    rw [contactsIn_append]
    by_cases h : (contactsIn rows).contains r.contact_name
    · rw [if_pos h]
      have hr : r.contact_name ∈ contactsIn rows := by
        simpa using h
      constructor
      · intro hc
        rcases ih.mp hc with ⟨r2, hr2, he⟩
        exact ⟨r2, by simp [hr2], he⟩
      · intro hc
        rcases hc with ⟨r2, hr2, he⟩
        rcases (List.mem_append.mp hr2) with h2 | h2
        · exact ih.mpr ⟨r2, h2, he⟩
        · simp at h2
          subst h2
          subst he
          exact hr
    · rw [if_neg h]
      constructor
      · intro hc
        rcases List.mem_append.mp hc with h2 | h2
        · rcases ih.mp h2 with ⟨r2, hr2, he⟩
          exact ⟨r2, by simp [hr2], he⟩
        · simp at h2
          exact ⟨r, by simp, h2.symm⟩
      · intro hc
        rcases hc with ⟨r2, hr2, he⟩
        rcases List.mem_append.mp hr2 with h2 | h2
        · exact List.mem_append.mpr (Or.inl (ih.mpr ⟨r2, h2, he⟩))
        · simp at h2
          subst h2
          subst he
          simp
theorem contactsIn_nodup (rows : List Row) : (contactsIn rows).Nodup := by
  induction rows using List.reverseRecOn with
  | nil => simp [contactsIn]
  | append_singleton rows r ih =>
    rw [contactsIn_append]
    by_cases h : (contactsIn rows).contains r.contact_name
    · rw [if_pos h]
      exact ih
    · rw [if_neg h]
      refine List.Nodup.append ih (List.nodup_singleton _) ?_
      intro a ha hb
      simp at hb
      subst hb
      exact absurd (by simpa using ha) (by simpa using h)

theorem updateKey_map (w : UtcWindows) (r : Row) (cs : List (List Char))
    (g : List Char → ConvData) (hnd : cs.Nodup) :
    updateKey w r (cs.map (fun c => (c, g c))) =
      cs.map (fun c => (c, if c = r.contact_name then addRow w (g c) r else g c)) := by
  induction cs with
  | nil => simp [updateKey]
  | cons c0 cs ih =>
    rw [List.nodup_cons] at hnd
    by_cases h : c0 = r.contact_name
    · simp only [List.map_cons, updateKey, if_pos h]
      have htail : List.map (fun c => (c, g c)) cs =
          List.map (fun c => (c, if c = r.contact_name then addRow w (g c) r else g c)) cs := by
        apply List.map_congr_left
        intro c hc
        have hne : ¬ c = r.contact_name := by
          intro he
          rw [← h] at he
          rw [he] at hc
          exact hnd.1 hc
        simp [hne]
      rw [← htail]
    · simp only [List.map_cons, updateKey, if_neg h]
      rw [ih hnd.2]

theorem groupFold_append (w : UtcWindows) (rows : List Row) (r : Row) (c : List Char) :
    groupFold w (rows ++ [r]) c =
      if r.contact_name = c then addRow w (groupFold w rows c) r
      else groupFold w rows c := by
  by_cases h : r.contact_name = c
  · simp [groupFold, List.filter_append, h, List.foldl_append]
  · simp [groupFold, List.filter_append, h]

/-- The dict loop groups by contact: the assembled association list has the
distinct contacts in first-appearance order, each mapped to the fold of its
own rows. -/
theorem assembleConvs_eq_grouped (w : UtcWindows) (rows : List Row) :
    assembleConvs w rows = (contactsIn rows).map (fun c => (c, groupFold w rows c)) := by
  induction rows using List.reverseRecOn with
  | nil => simp [assembleConvs, contactsIn]
  | append_singleton rows r ih =>
    have hstep : assembleConvs w (rows ++ [r]) = stepRow w (assembleConvs w rows) r := by
      simp [assembleConvs, List.foldl_append]
    rw [hstep, ih, contactsIn_append]
    have hfst : ((contactsIn rows).map (fun c => (c, groupFold w rows c))).map Prod.fst =
        contactsIn rows := by
      rw [List.map_map]
      simp [Function.comp_def]
    by_cases h : (contactsIn rows).contains r.contact_name
    · rw [if_pos h]
      rw [stepRow, ensureKey, hfst, if_pos h,
        updateKey_map w r _ _ (contactsIn_nodup rows)]
      apply List.map_congr_left
      intro c hc
      rw [groupFold_append]
      by_cases he : c = r.contact_name
      · simp [he]
      · have he2 : ¬ r.contact_name = c := fun h2 => he h2.symm
        simp [he, he2]
    · rw [if_neg h]
      have hmem : r.contact_name ∉ contactsIn rows := by simpa using h
      rw [stepRow, ensureKey, hfst, if_neg h]
      have hform : (contactsIn rows).map (fun c => (c, groupFold w rows c)) ++ [(r.contact_name, emptyConv)] =
          (contactsIn rows ++ [r.contact_name]).map
            (fun c => (c, if c = r.contact_name then emptyConv else groupFold w rows c)) := by
        rw [List.map_append]
        congr 1
        · apply List.map_congr_left
          intro c hc
          have hne : ¬ c = r.contact_name := fun he => hmem (he ▸ hc)
          simp [hne]
        · simp
      have hnd2 : (contactsIn rows ++ [r.contact_name]).Nodup := by
        refine List.Nodup.append (contactsIn_nodup rows) (List.nodup_singleton _) ?_
        intro a ha hb
        simp at hb
        subst hb
        exact hmem ha
      rw [hform, updateKey_map w r _ _ hnd2]
      apply List.map_congr_left
      intro c hc
      rcases List.mem_append.mp hc with hca | hcr
      · have hne : ¬ c = r.contact_name := fun he => hmem (he ▸ hca)
        have hne2 : ¬ r.contact_name = c := fun h2 => hne h2.symm
        rw [groupFold_append]
        simp [hne, hne2]
      · simp at hcr
        subst hcr
        have hfil : rows.filter (fun r2 => decide (r2.contact_name = r.contact_name)) = [] := by
          rw [List.filter_eq_nil_iff]
          intro r2 hr2
          simp only [decide_eq_true_eq]
          intro he
          exact hmem ((mem_contactsIn rows r.contact_name).mpr ⟨r2, hr2, he⟩)
        rw [groupFold_append]
        simp [groupFold, hfil]

/-! ### Buckets partition the fetched rows (C9) -/

/-- Membership of a row in the bucket the `if/elif` chain selects. -/
def bPred (w : UtcWindows) (b : Bucket) (r : Row) : Bool :=
  bucketOf w r.timestamp == some b

/-- Characterisation of the per-contact fold: each bucket collects, in
order, exactly the rows the `if/elif` chain sends to it, and
`firstCurrent` is the timestamp of the first `current` row. -/
theorem foldl_addRow_spec (w : UtcWindows) (l : List Row) (d : ConvData) :
    (l.foldl (addRow w) d).prev = d.prev ++ l.filter (bPred w Bucket.prev) ∧
    (l.foldl (addRow w) d).current = d.current ++ l.filter (bPred w Bucket.current) ∧
    (l.foldl (addRow w) d).next = d.next ++ l.filter (bPred w Bucket.next) ∧
    (l.foldl (addRow w) d).firstCurrent =
      (match d.firstCurrent with
       | some t => some t
       | none => ((l.filter (bPred w Bucket.current)).head?).map Row.timestamp) := by
  induction l generalizing d with
  | nil =>
    refine ⟨by simp, by simp, by simp, ?_⟩
    rcases hd : d.firstCurrent with _ | t <;> simp [hd]
  | cons r l ih =>
    have hstep : (r :: l).foldl (addRow w) d = l.foldl (addRow w) (addRow w d r) := rfl
    rw [hstep]
    rcases hb : bucketOf w r.timestamp with _ | b
    · have haddr : addRow w d r = d := by simp [addRow, hb]
      have hf1 : bPred w Bucket.prev r = false := by simp [bPred, hb]
      have hf2 : bPred w Bucket.current r = false := by simp [bPred, hb]
      have hf3 : bPred w Bucket.next r = false := by simp [bPred, hb]
      rw [haddr]
      rcases ih d with ⟨h1, h2, h3, h4⟩
      exact ⟨by simp [List.filter_cons, hf1, h1],
             by simp [List.filter_cons, hf2, h2],
             by simp [List.filter_cons, hf3, h3],
             by simp [List.filter_cons, hf2, h4]⟩
    · cases b
      · have haddr : addRow w d r = { d with prev := d.prev ++ [r] } := by simp [addRow, hb]
        have hf1 : bPred w Bucket.prev r = true := by simp [bPred, hb]
        have hf2 : bPred w Bucket.current r = false := by simp [bPred, hb]
        have hf3 : bPred w Bucket.next r = false := by simp [bPred, hb]
        rw [haddr]
        rcases ih { d with prev := d.prev ++ [r] } with ⟨h1, h2, h3, h4⟩
        exact ⟨by simp [List.filter_cons, hf1, h1],
               by simp [List.filter_cons, hf2, h2],
               by simp [List.filter_cons, hf3, h3],
               by simp [List.filter_cons, hf2, h4]⟩
      · have hf1 : bPred w Bucket.prev r = false := by simp [bPred, hb]
        have hf2 : bPred w Bucket.current r = true := by simp [bPred, hb]
        have hf3 : bPred w Bucket.next r = false := by simp [bPred, hb]
        rcases hd : d.firstCurrent with _ | t
        · have haddr : addRow w d r =
              { d with current := d.current ++ [r], firstCurrent := some r.timestamp } := by
            simp [addRow, hb, hd]
          rw [haddr]
          rcases ih { d with current := d.current ++ [r], firstCurrent := some r.timestamp } with
            ⟨h1, h2, h3, h4⟩
          refine ⟨by simp [List.filter_cons, hf1, h1],
                  by simp [List.filter_cons, hf2, h2],
                  by simp [List.filter_cons, hf3, h3], ?_⟩
          rw [h4]
          simp [List.filter_cons, hf2, hd]
        · have haddr : addRow w d r = { d with current := d.current ++ [r] } := by
            simp [addRow, hb, hd]
          rw [haddr]
          rcases ih { d with current := d.current ++ [r] } with ⟨h1, h2, h3, h4⟩
          refine ⟨by simp [List.filter_cons, hf1, h1],
                  by simp [List.filter_cons, hf2, h2],
                  by simp [List.filter_cons, hf3, h3], ?_⟩
          rw [h4]
          simp [hd]
      · have haddr : addRow w d r = { d with next := d.next ++ [r] } := by simp [addRow, hb]
        have hf1 : bPred w Bucket.prev r = false := by simp [bPred, hb]
        have hf2 : bPred w Bucket.current r = false := by simp [bPred, hb]
        have hf3 : bPred w Bucket.next r = true := by simp [bPred, hb]
        rw [haddr]
        rcases ih { d with next := d.next ++ [r] } with ⟨h1, h2, h3, h4⟩
        exact ⟨by simp [List.filter_cons, hf1, h1],
               by simp [List.filter_cons, hf2, h2],
               by simp [List.filter_cons, hf3, h3],
               by simp [List.filter_cons, hf2, h4]⟩

/-- A timestamp inside one of the three window tests is counted once:
the tests are pairwise disjoint and cover the query range, provided the
shared `current` boundaries are ordered. -/
theorem exactly_one_window (pLo a b c t : Int) (h1 : pLo ≤ t) (h2 : t < c) (hab : a ≤ b) :
    ((if inWin pLo a t = true then 1 else 0) + (if inWin a b t = true then 1 else 0) +
      (if inWin b c t = true then 1 else 0) : Nat) = 1 := by
  simp only [inWin, Bool.and_eq_true, decide_eq_true_eq]
  split_ifs <;> omega

theorem bucket_count_one (pLo a b c t : Int) (h1 : pLo ≤ t) (h2 : t < c) (hab : a ≤ b) :
    ∃ bk, (if inWin pLo a t = true then some Bucket.prev
           else if inWin a b t = true then some Bucket.current
           else if inWin b c t = true then some Bucket.next
           else none) = some bk := by
  simp only [inWin, Bool.and_eq_true, decide_eq_true_eq]
  split_ifs <;> first
    | exact ⟨Bucket.prev, rfl⟩
    | exact ⟨Bucket.current, rfl⟩
    | exact ⟨Bucket.next, rfl⟩
    | omega

/-- For a row of the three-day range query, the `if/elif` chain always
selects a bucket. -/
theorem bucketOf_isSome (tz : Tz) (date : Ymd) (t : Int)
    (hord : tz.localToUTC (startLocalOf date) ≤ tz.localToUTC (startLocalOf date + 1440))
    (h1 : (utcWindows tz date).prevLo ≤ t) (h2 : t < (utcWindows tz date).nextHi) :
    bucketOf (utcWindows tz date) t ≠ none := by
  have hx := bucket_count_one (utcWindows tz date).prevLo (utcWindows tz date).prevHi
    (utcWindows tz date).curHi (utcWindows tz date).nextHi t h1 h2 hord
  rcases hx with ⟨bk, hbk⟩
  rw [bucketOf]
  show (if inPrevW (utcWindows tz date) t = true then some Bucket.prev
        else if inCurW (utcWindows tz date) t = true then some Bucket.current
        else if inNextW (utcWindows tz date) t = true then some Bucket.next
        else none) ≠ none
  rw [show inPrevW (utcWindows tz date) t = inWin (utcWindows tz date).prevLo (utcWindows tz date).prevHi t from rfl,
      show inCurW (utcWindows tz date) t = inWin (utcWindows tz date).prevHi (utcWindows tz date).curHi t from rfl,
      show inNextW (utcWindows tz date) t = inWin (utcWindows tz date).curHi (utcWindows tz date).nextHi t from rfl,
      hbk]
  simp

theorem filter_bucket_partition (w : UtcWindows) (l : List Row)
    (hall : ∀ r ∈ l, bucketOf w r.timestamp ≠ none) :
    (l.filter (bPred w Bucket.prev)).length + (l.filter (bPred w Bucket.current)).length +
      (l.filter (bPred w Bucket.next)).length = l.length := by
  induction l with
  | nil => simp
  | cons r l ih =>
    have hr := hall r (by simp)
    have hrest : ∀ r2 ∈ l, bucketOf w r2.timestamp ≠ none :=
      fun r2 h2 => hall r2 (by simp [h2])
    have ihr := ih hrest
    rcases hb : bucketOf w r.timestamp with _ | b
    · exact absurd hb hr
    · cases b <;> simp [List.filter_cons, bPred, hb] <;> omega

theorem sum_map_add {α : Type} (f g : α → Nat) (l : List α) :
    (l.map (fun a => f a + g a)).sum = (l.map f).sum + (l.map g).sum := by
  induction l with
  | nil => simp
  | cons a l ih => simp [ih]; omega

theorem sum_indicator (cs : List (List Char)) (k : List Char) (hnd : cs.Nodup) :
    (cs.map (fun c => if k = c then (1 : Nat) else 0)).sum = if k ∈ cs then 1 else 0 := by
  induction cs with
  | nil => simp
  | cons c0 cs ih =>
    rw [List.nodup_cons] at hnd
    by_cases h : k = c0
    · subst h
      have : k ∉ cs := hnd.1
      simp [ih hnd.2, this]
    · have hne : ¬ k = c0 := h
      simp only [List.map_cons, List.sum_cons, if_neg hne, ih hnd.2]
      simp [hne]

theorem sum_filter_lengths (rows : List Row) :
    ((contactsIn rows).map
      (fun c => (rows.filter (fun r2 => decide (r2.contact_name = c))).length)).sum =
      rows.length := by
  induction rows using List.reverseRecOn with
  | nil => simp [contactsIn]
  | append_singleton rows r ih =>
    have hlen : ∀ c, ((rows ++ [r]).filter (fun r2 => decide (r2.contact_name = c))).length =
        (rows.filter (fun r2 => decide (r2.contact_name = c))).length +
          (if r.contact_name = c then 1 else 0) := by
      intro c
      rw [List.filter_append, List.length_append]
      by_cases h : r.contact_name = c <;> simp [h]
    rw [contactsIn_append]
    by_cases h : (contactsIn rows).contains r.contact_name
    · rw [if_pos h]
      have hmem : r.contact_name ∈ contactsIn rows := by simpa using h
      have hcong : (contactsIn rows).map
          (fun c => ((rows ++ [r]).filter (fun r2 => decide (r2.contact_name = c))).length) =
          (contactsIn rows).map
          (fun c => (rows.filter (fun r2 => decide (r2.contact_name = c))).length +
            (if r.contact_name = c then 1 else 0)) := by
        apply List.map_congr_left
        intro c _
        exact hlen c
      rw [hcong, sum_map_add, ih, sum_indicator _ _ (contactsIn_nodup rows), if_pos hmem,
        List.length_append]
      simp
    · rw [if_neg h]
      have hmem : r.contact_name ∉ contactsIn rows := by simpa using h
      rw [List.map_append, List.sum_append]
      have hcong : (contactsIn rows).map
          (fun c => ((rows ++ [r]).filter (fun r2 => decide (r2.contact_name = c))).length) =
          (contactsIn rows).map
          (fun c => (rows.filter (fun r2 => decide (r2.contact_name = c))).length) := by
        apply List.map_congr_left
        intro c hc
        rw [hlen c]
        have hne : ¬ r.contact_name = c := by
          intro he
          exact hmem (he ▸ hc)
        simp [hne]
      rw [hcong, ih]
      have hfil : rows.filter (fun r2 => decide (r2.contact_name = r.contact_name)) = [] := by
        rw [List.filter_eq_nil_iff]
        intro r2 hr2
        simp only [decide_eq_true_eq]
        intro he
        exact hmem ((mem_contactsIn rows r.contact_name).mpr ⟨r2, hr2, he⟩)
      have hlast : ((rows ++ [r]).filter
          (fun r2 => decide (r2.contact_name = r.contact_name))).length = 1 := by
        rw [hlen r.contact_name, hfil]
        simp
      simp only [List.map_cons, List.map_nil, List.sum_cons, List.sum_nil, hlast]
      rw [List.length_append]
      simp

/-- Total number of messages held by all buckets of all contacts. -/
def msgCount (cs : List (List Char × ConvData)) : Nat :=
  (cs.map (fun p => p.2.prev.length + p.2.current.length + p.2.next.length)).sum

/-! ### Conversation ordering (lines 165-166) -/

/-- The SQL sort key of a row: `ORDER BY contact_name, timestamp`
(contact names compare bytewise, which for UTF-8 is the codepoint
lexicographic order of `List Char`). -/
def rowKey (r : Row) : List Char × Int :=
  (r.contact_name, r.timestamp)

def keyLe (x y : List Char × Int) : Prop :=
  x.1 < y.1 ∨ (x.1 = y.1 ∧ x.2 ≤ y.2)

/-- Row order produced by the query's `ORDER BY contact_name, timestamp`. -/
def rowLe (a b : Row) : Prop :=
  keyLe (rowKey a) (rowKey b)

instance : DecidableRel keyLe :=
  fun x y => inferInstanceAs (Decidable (_ ∨ _))

instance : DecidableRel rowLe :=
  fun a b => inferInstanceAs (Decidable (keyLe _ _))

instance : IsTrans (List Char × Int) keyLe :=
  ⟨by
    intro x y z h1 h2
    rcases h1 with h1 | ⟨he1, ht1⟩ <;> rcases h2 with h2 | ⟨he2, ht2⟩
    · exact Or.inl (lt_trans h1 h2)
    · exact Or.inl (he2 ▸ h1)
    · exact Or.inl (lt_of_le_of_lt (le_of_eq he1) h2)
    · exact Or.inr ⟨he1.trans he2, le_trans ht1 ht2⟩⟩

instance : IsAntisymm (List Char × Int) keyLe :=
  ⟨by
    intro x y h1 h2
    rcases h1 with h1 | ⟨he1, ht1⟩ <;> rcases h2 with h2 | ⟨he2, ht2⟩
    · exact absurd h2 (lt_asymm h1)
    · exact absurd h1 (he2 ▸ lt_irrefl _)
    · exact absurd h2 (he1 ▸ lt_irrefl _)
    · rcases x with ⟨x1, x2⟩
      rcases y with ⟨y1, y2⟩
      simp only at he1 ht1 ht2
      simp [he1, le_antisymm ht1 ht2]⟩

instance : IsTotal (List Char × Int) keyLe :=
  ⟨by
    intro x y
    rcases lt_trichotomy x.1 y.1 with h | h | h
    · exact Or.inl (Or.inl h)
    · rcases le_total x.2 y.2 with h2 | h2
      · exact Or.inl (Or.inr ⟨h, h2⟩)
      · exact Or.inr (Or.inr ⟨h.symm, h2⟩)
    · exact Or.inr (Or.inl h)⟩

/-- The sort key of `conversations_to_render.sort` (line 166):
`first_current_timestamp` (always set for a surviving conversation). -/
def keyOf (p : List Char × ConvData) : Int :=
  p.2.firstCurrent.getD 0

/-- The comparison used by the (stable) Python sort of line 166. -/
def convLe (a b : List Char × ConvData) : Prop :=
  keyOf a ≤ keyOf b

instance : DecidableRel convLe :=
  fun a b => inferInstanceAs (Decidable (keyOf a ≤ keyOf b))

instance : IsTotal (List Char × ConvData) convLe :=
  ⟨fun a b => le_total (keyOf a) (keyOf b)⟩

instance : IsTrans (List Char × ConvData) convLe :=
  ⟨fun _ _ _ h1 h2 => le_trans h1 h2⟩

/-- Line 165: keep only the contacts whose `current` bucket is non-empty,
in dict (= first appearance) order. -/
def survivors (w : UtcWindows) (rows : List Row) : List (List Char × ConvData) :=
  (assembleConvs w rows).filter (fun p => !p.2.current.isEmpty)

/-- Line 166: the final conversation order — Python's `list.sort` is a
stable sort, modelled by insertion sort with the same key. -/
def renderOrder (w : UtcWindows) (rows : List Row) : List (List Char × ConvData) :=
  (survivors w rows).insertionSort convLe

theorem mem_assembleConvs_shape (w : UtcWindows) (rows : List Row)
    (p : List Char × ConvData) (hp : p ∈ assembleConvs w rows) :
    p.1 ∈ contactsIn rows ∧ p.2 = groupFold w rows p.1 := by
  rw [assembleConvs_eq_grouped] at hp
  rcases List.mem_map.mp hp with ⟨c, hc, rfl⟩
  exact ⟨hc, rfl⟩

theorem mem_renderOrder_shape (w : UtcWindows) (rows : List Row)
    (p : List Char × ConvData) (hp : p ∈ renderOrder w rows) :
    p.1 ∈ contactsIn rows ∧ p.2 = groupFold w rows p.1 ∧ p.2.current ≠ [] := by
  have hp2 : p ∈ survivors w rows := by
    have : p ∈ (survivors w rows).insertionSort convLe := hp
    exact (List.mem_insertionSort convLe).mp this
  have hf := List.mem_filter.mp hp2
  rcases mem_assembleConvs_shape w rows p hf.1 with ⟨h1, h2⟩
  refine ⟨h1, h2, ?_⟩
  have := hf.2
  simp only [Bool.not_eq_eq_eq_not, Bool.not_true, List.isEmpty_eq_false] at this
  simpa using this

theorem contactsIn_pairwise_lt (rows : List Row) (hsort : rows.Pairwise rowLe) :
    (contactsIn rows).Pairwise (fun a b : List Char => a < b) := by
  induction rows using List.reverseRecOn with
  | nil => simp [contactsIn]
  | append_singleton rows r ih =>
    have hsub : rows.Pairwise rowLe :=
      List.Pairwise.sublist (List.sublist_append_left rows [r]) hsort
    rw [contactsIn_append]
    by_cases h : (contactsIn rows).contains r.contact_name
    · rw [if_pos h]
      exact ih hsub
    · rw [if_neg h]
      have hmem : r.contact_name ∉ contactsIn rows := by simpa using h
      rw [List.pairwise_append]
      refine ⟨ih hsub, List.pairwise_singleton _ _, ?_⟩
      intro c hc b hb
      simp at hb
      subst hb
      rcases (mem_contactsIn rows c).mp hc with ⟨r2, hr2, he⟩
      have hrel : rowLe r2 r := by
        rw [List.pairwise_append] at hsort
        exact hsort.2.2 r2 hr2 r (by simp)
      rcases hrel with hlt | ⟨heq, _⟩
      · rw [← he]
        exact hlt
      · exact absurd ((mem_contactsIn rows r.contact_name).mpr ⟨r2, hr2, heq⟩) hmem

theorem survivors_pairwise_fst (w : UtcWindows) (rows : List Row)
    (hsort : rows.Pairwise rowLe) :
    (survivors w rows).Pairwise (fun a b => a.1 < b.1) := by
  have h1 := contactsIn_pairwise_lt rows hsort
  have h2 : (assembleConvs w rows).Pairwise (fun a b => a.1 < b.1) := by
    rw [assembleConvs_eq_grouped]
    exact List.pairwise_map.mpr (h1.imp (fun h => h))
  exact h2.filter _

theorem survivors_nodup (w : UtcWindows) (rows : List Row)
    (hsort : rows.Pairwise rowLe) : (survivors w rows).Nodup :=
  (survivors_pairwise_fst w rows hsort).imp
    (fun hab => fun he => (ne_of_lt hab) (congrArg Prod.fst he))

theorem renderOrder_nodup (w : UtcWindows) (rows : List Row)
    (hsort : rows.Pairwise rowLe) : (renderOrder w rows).Nodup :=
  ((List.perm_insertionSort convLe (survivors w rows)).nodup_iff).mpr
    (survivors_nodup w rows hsort)

theorem renderOrder_sorted_key (w : UtcWindows) (rows : List Row) :
    (renderOrder w rows).Pairwise convLe :=
  List.sorted_insertionSort convLe (survivors w rows)

theorem pair_sublist_of_mem {α : Type} (a b : α) (hne : a ≠ b) :
    ∀ l : List α, l.Nodup → a ∈ l → b ∈ l →
      List.Sublist [a, b] l ∨ List.Sublist [b, a] l := by
  intro l
  induction l with
  | nil =>
    intro _ ha _
    simp at ha
  | cons x t ih =>
    intro hnd ha hb
    rw [List.nodup_cons] at hnd
    by_cases hxa : x = a
    · subst hxa
      have hbt : b ∈ t := by
        rcases List.mem_cons.mp hb with h | h
        · exact absurd h.symm hne
        · exact h
      exact Or.inl (List.Sublist.cons₂ x (List.singleton_sublist.mpr hbt))
    · by_cases hxb : x = b
      · subst hxb
        have hat : a ∈ t := by
          rcases List.mem_cons.mp ha with h | h
          · exact absurd h (fun h2 => hxa h2.symm)
          · exact h
        exact Or.inr (List.Sublist.cons₂ x (List.singleton_sublist.mpr hat))
      · have hat : a ∈ t := by
          rcases List.mem_cons.mp ha with h | h
          · exact absurd h (fun h2 => hxa h2.symm)
          · exact h
        have hbt : b ∈ t := by
          rcases List.mem_cons.mp hb with h | h
          · exact absurd h (fun h2 => hxb h2.symm)
          · exact h
        rcases ih hnd.2 hat hbt with h | h
        · exact Or.inl (h.cons x)
        · exact Or.inr (h.cons x)

theorem pair_sublist_antisymm {α : Type} (a b : α) :
    ∀ l : List α, l.Nodup → List.Sublist [a, b] l → List.Sublist [b, a] l → a = b := by
  intro l
  induction l with
  | nil =>
    intro _ h1 _
    exact absurd (List.Sublist.length_le h1) (by simp)
  | cons x t ih =>
    intro hnd h1 h2
    rw [List.nodup_cons] at hnd
    cases h1 with
    | cons _ h1p =>
      cases h2 with
      | cons _ h2p => exact ih hnd.2 h1p h2p
      | cons₂ _ h2p =>
        exact absurd (h1p.subset (by simp)) hnd.1
    | cons₂ _ h1p =>
      cases h2 with
      | cons _ h2p =>
        exact absurd (h2p.subset (by simp)) hnd.1
      | cons₂ _ h2p => rfl

/-- Stability of the final sort: elements of the render order with equal
sort keys keep the contact-alphabetical order of the underlying query. -/
theorem renderOrder_ties (w : UtcWindows) (rows : List Row)
    (hsort : rows.Pairwise rowLe) :
    (renderOrder w rows).Pairwise (fun a b => keyOf a = keyOf b → a.1 < b.1) := by
  rw [List.pairwise_iff_forall_sublist]
  intro a b hab hk
  have hnd := renderOrder_nodup w rows hsort
  have hane : a ≠ b := by
    intro he
    subst he
    exact (List.pairwise_iff_forall_sublist.mp hnd hab) rfl
  have hmema : a ∈ renderOrder w rows := hab.subset (by simp)
  have hmemb : b ∈ renderOrder w rows := hab.subset (by simp)
  have hsurva : a ∈ survivors w rows := (List.mem_insertionSort convLe).mp hmema
  have hsurvb : b ∈ survivors w rows := (List.mem_insertionSort convLe).mp hmemb
  have hsp := survivors_pairwise_fst w rows hsort
  rcases pair_sublist_of_mem a b hane (survivors w rows)
      (survivors_nodup w rows hsort) hsurva hsurvb with hin | hin
  · exact List.pairwise_iff_forall_sublist.mp hsp hin
  · exfalso
    have hba : convLe b a := le_of_eq (congrArg id hk).symm
    have hout : List.Sublist [b, a] ((survivors w rows).insertionSort convLe) :=
      List.pair_sublist_insertionSort hba hin
    exact hane (pair_sublist_antisymm a b (renderOrder w rows) hnd hab hout)

/-- For every rendered conversation: its `current` bucket is exactly the
fetched rows of that contact inside the `current` window, and
`first_current_timestamp` is the timestamp of the chronologically earliest
of those rows (the first one, under the query's `ORDER BY`). -/
theorem renderOrder_current_spec (w : UtcWindows) (rows : List Row)
    (hsort : rows.Pairwise rowLe) (p : List Char × ConvData)
    (hp : p ∈ renderOrder w rows) :
    p.2.current ≠ [] ∧
    p.2.current = (rows.filter (fun r => decide (r.contact_name = p.1))).filter
      (bPred w Bucket.current) ∧
    ∃ t, p.2.firstCurrent = some t ∧
      (∃ r ∈ p.2.current, r.timestamp = t) ∧
      ∀ r ∈ p.2.current, t ≤ r.timestamp := by
  rcases mem_renderOrder_shape w rows p hp with ⟨hcmem, hshape, hne⟩
  have hspec := foldl_addRow_spec w
    (rows.filter (fun r => decide (r.contact_name = p.1))) emptyConv
  have hcur : p.2.current = (rows.filter (fun r => decide (r.contact_name = p.1))).filter
      (bPred w Bucket.current) := by
    rw [hshape]
    simp only [groupFold]
    rw [hspec.2.1]
    simp [emptyConv]
  have hfc : p.2.firstCurrent =
      (((rows.filter (fun r => decide (r.contact_name = p.1))).filter
        (bPred w Bucket.current)).head?).map Row.timestamp := by
    rw [hshape]
    simp only [groupFold]
    rw [hspec.2.2.2]
    rfl
  refine ⟨hne, hcur, ?_⟩
  rcases hcl : (rows.filter (fun r => decide (r.contact_name = p.1))).filter
      (bPred w Bucket.current) with _ | ⟨r0, rest⟩
  · rw [hcur, hcl] at hne
    exact absurd rfl hne
  · refine ⟨r0.timestamp, ?_, ?_, ?_⟩
    · rw [hfc, hcl]
      rfl
    · rw [hcur, hcl]
      exact ⟨r0, by simp, rfl⟩
    · have hp1 : (rows.filter (fun r => decide (r.contact_name = p.1))).Pairwise rowLe :=
        hsort.filter _
      have hp2 : (rows.filter (fun r => decide (r.contact_name = p.1))).Pairwise
          (fun r1 r2 => r1.timestamp ≤ r2.timestamp) := by
        rw [List.pairwise_iff_forall_sublist] at hp1 ⊢
        intro r1 r2 hs
        have h1 : r1 ∈ rows.filter (fun r => decide (r.contact_name = p.1)) :=
          hs.subset (by simp)
        have h2 : r2 ∈ rows.filter (fun r => decide (r.contact_name = p.1)) :=
          hs.subset (by simp)
        have hc1 : r1.contact_name = p.1 := by simpa using (List.mem_filter.mp h1).2
        have hc2 : r2.contact_name = p.1 := by simpa using (List.mem_filter.mp h2).2
        rcases hp1 hs with hlt | ⟨_, hle⟩
        · rw [rowKey, rowKey] at hlt
          simp only at hlt
          rw [hc1, hc2] at hlt
          exact absurd hlt (lt_irrefl _)
        · exact hle
      have hp3 := hp2.filter (bPred w Bucket.current)
      rw [hcl] at hp3
      rw [hcur, hcl]
      intro r hr
      rcases List.mem_cons.mp hr with h | h
      · rw [h]
      · exact (List.pairwise_cons.mp hp3).1 r h

/-! ### Congruence of the pipeline under row-wise relations

Used both for the determinism part of the ordering claim and for the
sender-independence hyperproperty: the assembler and renderer only consume
certain row fields, so rows related by a field-preserving relation produce
related outputs. -/

def ConvRel (R : Row → Row → Prop) (d e : ConvData) : Prop :=
  List.Forall₂ R d.prev e.prev ∧ List.Forall₂ R d.current e.current ∧
    List.Forall₂ R d.next e.next ∧ d.firstCurrent = e.firstCurrent

def PairRel (R : Row → Row → Prop) (p q : List Char × ConvData) : Prop :=
  p.1 = q.1 ∧ ConvRel R p.2 q.2

def AssocRel (R : Row → Row → Prop) (m1 m2 : List (List Char × ConvData)) : Prop :=
  List.Forall₂ (PairRel R) m1 m2

theorem forall₂_append_single {α β : Type} (R : α → β → Prop) (l1 : List α)
    (l2 : List β) (h : List.Forall₂ R l1 l2) (a : α) (b : β) (hab : R a b) :
    List.Forall₂ R (l1 ++ [a]) (l2 ++ [b]) := by
  induction h with
  | nil => exact List.forall₂_cons.mpr ⟨hab, List.Forall₂.nil⟩
  | cons hxy _ ih => exact List.forall₂_cons.mpr ⟨hxy, ih⟩

theorem addRow_rel (R : Row → Row → Prop) (w : UtcWindows)
    (ht : ∀ a b, R a b → a.timestamp = b.timestamp)
    (d e : ConvData) (hde : ConvRel R d e) (r1 r2 : Row) (hr : R r1 r2) :
    ConvRel R (addRow w d r1) (addRow w e r2) := by
  have hts : r1.timestamp = r2.timestamp := ht r1 r2 hr
  rcases hde with ⟨h1, h2, h3, h4⟩
  have hb2 : bucketOf w r2.timestamp = bucketOf w r1.timestamp := by rw [hts]
  rcases hb : bucketOf w r1.timestamp with _ | b
  · simp only [addRow]
    rw [hb2, hb]
    exact ⟨h1, h2, h3, h4⟩
  · cases b
    · simp only [addRow]
      rw [hb2, hb]
      exact ⟨forall₂_append_single R _ _ h1 r1 r2 hr, h2, h3, h4⟩
    · simp only [addRow]
      rw [hb2, hb]
      refine ⟨h1, forall₂_append_single R _ _ h2 r1 r2 hr, h3, ?_⟩
      show (match d.firstCurrent with
            | none => some r1.timestamp
            | some t => some t) =
          (match e.firstCurrent with
            | none => some r2.timestamp
            | some t => some t)
      rw [h4, hts]
    · simp only [addRow]
      rw [hb2, hb]
      exact ⟨h1, h2, forall₂_append_single R _ _ h3 r1 r2 hr, h4⟩

theorem assocRel_fsts (R : Row → Row → Prop) (m1 m2 : List (List Char × ConvData))
    (h : AssocRel R m1 m2) : m1.map Prod.fst = m2.map Prod.fst := by
  induction h with
  | nil => rfl
  | cons hpq _ ih => simp [hpq.1, ih]

theorem updateKey_rel (R : Row → Row → Prop) (w : UtcWindows)
    (ht : ∀ a b, R a b → a.timestamp = b.timestamp)
    (r1 r2 : Row) (hr : R r1 r2) (hcr : r1.contact_name = r2.contact_name)
    (m1 m2 : List (List Char × ConvData)) (h : AssocRel R m1 m2) :
    AssocRel R (updateKey w r1 m1) (updateKey w r2 m2) := by
  induction h with
  | nil => exact List.Forall₂.nil
  | @cons a b t1 t2 hpq hrest ih =>
    rw [updateKey, updateKey]
    rcases hpq with ⟨hfst, hconv⟩
    by_cases hk : a.1 = r1.contact_name
    · rw [if_pos hk, if_pos (by rw [← hfst, ← hcr]; exact hk)]
      exact List.forall₂_cons.mpr
        ⟨⟨hfst, addRow_rel R w ht _ _ hconv r1 r2 hr⟩, hrest⟩
    · rw [if_neg hk, if_neg (by rw [← hfst, ← hcr]; exact hk)]
      exact List.forall₂_cons.mpr ⟨⟨hfst, hconv⟩, ih⟩

theorem convRel_empty (R : Row → Row → Prop) : ConvRel R emptyConv emptyConv :=
  ⟨List.Forall₂.nil, List.Forall₂.nil, List.Forall₂.nil, rfl⟩

theorem stepRow_rel (R : Row → Row → Prop) (w : UtcWindows)
    (ht : ∀ a b, R a b → a.timestamp = b.timestamp)
    (r1 r2 : Row) (hr : R r1 r2) (hcr : r1.contact_name = r2.contact_name)
    (m1 m2 : List (List Char × ConvData)) (h : AssocRel R m1 m2) :
    AssocRel R (stepRow w m1 r1) (stepRow w m2 r2) := by
  rw [stepRow, stepRow]
  have hek : AssocRel R (ensureKey r1.contact_name m1) (ensureKey r2.contact_name m2) := by
    rw [ensureKey, ensureKey, assocRel_fsts R m1 m2 h, hcr]
    by_cases hin : (m2.map Prod.fst).contains r2.contact_name
    · rw [if_pos hin, if_pos hin]
      exact h
    · rw [if_neg hin, if_neg hin]
      exact forall₂_append_single (PairRel R) m1 m2 h _ _ ⟨rfl, convRel_empty R⟩
  exact updateKey_rel R w ht r1 r2 hr hcr _ _ hek

theorem assemble_rel (R : Row → Row → Prop) (w : UtcWindows)
    (hc : ∀ a b, R a b → a.contact_name = b.contact_name)
    (ht : ∀ a b, R a b → a.timestamp = b.timestamp)
    (rows1 rows2 : List Row) (h : List.Forall₂ R rows1 rows2) :
    AssocRel R (assembleConvs w rows1) (assembleConvs w rows2) := by
  rw [assembleConvs, assembleConvs]
  have hgen : ∀ m1 m2, AssocRel R m1 m2 →
      AssocRel R (rows1.foldl (stepRow w) m1) (rows2.foldl (stepRow w) m2) := by
    induction h with
    | nil =>
      intro m1 m2 hm
      exact hm
    | cons hr hrest ih =>
      intro m1 m2 hm
      exact ih _ _ (stepRow_rel R w ht _ _ hr (hc _ _ hr) m1 m2 hm)
  exact hgen [] [] List.Forall₂.nil

theorem length_eq_isEmpty {α β : Type} (l1 : List α) (l2 : List β)
    (h : l1.length = l2.length) : l1.isEmpty = l2.isEmpty := by
  cases l1 <;> cases l2 <;> simp_all

theorem survivors_rel (R : Row → Row → Prop) (w : UtcWindows)
    (hc : ∀ a b, R a b → a.contact_name = b.contact_name)
    (ht : ∀ a b, R a b → a.timestamp = b.timestamp)
    (rows1 rows2 : List Row) (h : List.Forall₂ R rows1 rows2) :
    AssocRel R (survivors w rows1) (survivors w rows2) := by
  rw [survivors, survivors]
  have hass := assemble_rel R w hc ht rows1 rows2 h
  revert hass
  generalize assembleConvs w rows1 = A
  generalize assembleConvs w rows2 = B
  intro hass
  induction hass with
  | nil => exact List.Forall₂.nil
  | @cons a b t1 t2 hpq hrest ih =>
    rw [List.filter_cons, List.filter_cons]
    have hemp : a.2.current.isEmpty = b.2.current.isEmpty :=
      length_eq_isEmpty _ _ hpq.2.2.1.length_eq
    rw [hemp]
    by_cases hcur : (!b.2.current.isEmpty) = true
    · rw [if_pos hcur, if_pos hcur]
      exact List.forall₂_cons.mpr ⟨hpq, ih⟩
    · rw [if_neg hcur, if_neg hcur]
      exact ih

theorem keyOf_eq_of_pairRel (R : Row → Row → Prop) (p q : List Char × ConvData)
    (h : PairRel R p q) : keyOf p = keyOf q := by
  rw [keyOf, keyOf, h.2.2.2.2]

theorem orderedInsert_rel (R : Row → Row → Prop) (p q : List Char × ConvData)
    (hpq : PairRel R p q) (l1 l2 : List (List Char × ConvData))
    (h : AssocRel R l1 l2) :
    AssocRel R (l1.orderedInsert convLe p) (l2.orderedInsert convLe q) := by
  induction h with
  | nil => exact List.forall₂_cons.mpr ⟨hpq, List.Forall₂.nil⟩
  | @cons a b t1 t2 hab hrest ih =>
    rw [List.orderedInsert, List.orderedInsert]
    by_cases hle : convLe p a
    · rw [if_pos hle, if_pos (by
        rw [convLe, ← keyOf_eq_of_pairRel R p q hpq, ← keyOf_eq_of_pairRel R a b hab]
        exact hle)]
      exact List.forall₂_cons.mpr ⟨hpq, List.forall₂_cons.mpr ⟨hab, hrest⟩⟩
    · rw [if_neg hle, if_neg (by
        rw [convLe, ← keyOf_eq_of_pairRel R p q hpq, ← keyOf_eq_of_pairRel R a b hab]
        exact hle)]
      exact List.forall₂_cons.mpr ⟨hab, ih⟩

theorem insertionSort_rel (R : Row → Row → Prop)
    (l1 l2 : List (List Char × ConvData)) (h : AssocRel R l1 l2) :
    AssocRel R (l1.insertionSort convLe) (l2.insertionSort convLe) := by
  induction h with
  | nil => exact List.Forall₂.nil
  | cons hab hrest ih =>
    rw [List.insertionSort, List.insertionSort]
    exact orderedInsert_rel R _ _ hab _ _ ih

theorem renderOrder_rel (R : Row → Row → Prop) (w : UtcWindows)
    (hc : ∀ a b, R a b → a.contact_name = b.contact_name)
    (ht : ∀ a b, R a b → a.timestamp = b.timestamp)
    (rows1 rows2 : List Row) (h : List.Forall₂ R rows1 rows2) :
    AssocRel R (renderOrder w rows1) (renderOrder w rows2) := by
  rw [renderOrder, renderOrder]
  exact insertionSort_rel R _ _ (survivors_rel R w hc ht rows1 rows2 h)

theorem forall₂_of_map_eq {α β : Type} (f : α → β) (l1 l2 : List α)
    (h : l1.map f = l2.map f) : List.Forall₂ (fun a b => f a = f b) l1 l2 := by
  induction l1 generalizing l2 with
  | nil => cases l2 <;> simp_all
  | cons a t ih =>
    cases l2 with
    | nil => simp_all
    | cons b t2 =>
      simp only [List.map_cons, List.cons.injEq] at h
      exact List.forall₂_cons.mpr ⟨h.1, ih t2 h.2⟩

theorem assocRel_map_outKey (R : Row → Row → Prop)
    (l1 l2 : List (List Char × ConvData)) (h : AssocRel R l1 l2) :
    l1.map (fun p => (p.1, p.2.firstCurrent)) = l2.map (fun p => (p.1, p.2.firstCurrent)) := by
  induction h with
  | nil => rfl
  | @cons a b t1 t2 hab _ ih =>
    simp only [List.map_cons, ih, List.cons.injEq, and_true]
    rw [hab.1, hab.2.2.2.2]

/-- C3: in the rendered conversation list, every contact's
`first_current_timestamp` is the timestamp of its chronologically earliest
fetched row inside the `current` window; contacts with an empty `current`
bucket are dropped; the list is sorted ascending by
`first_current_timestamp`, ties keeping the contact-alphabetical order of
the query's `ORDER BY`; and the resulting (contact, first timestamp) order
is the same for any permutation of the fetched rows that satisfies the same
`ORDER BY`, hence independent of store insertion order. -/
theorem c3_conversation_ordering (tz : Tz) (date : Ymd) (rows : List Row)
    (hsort : rows.Pairwise rowLe) :
    (∀ p ∈ renderOrder (utcWindows tz date) rows,
      p.2.current ≠ [] ∧
      p.2.current = (rows.filter (fun r => decide (r.contact_name = p.1))).filter
        (bPred (utcWindows tz date) Bucket.current) ∧
      ∃ t, p.2.firstCurrent = some t ∧ (∃ r ∈ p.2.current, r.timestamp = t) ∧
        ∀ r ∈ p.2.current, t ≤ r.timestamp) ∧
    (renderOrder (utcWindows tz date) rows).Pairwise
      (fun a b => ∀ ta tb, a.2.firstCurrent = some ta → b.2.firstCurrent = some tb →
        ta ≤ tb ∧ (ta = tb → a.1 < b.1)) ∧
    (∀ rows2, List.Perm rows rows2 → rows2.Pairwise rowLe →
      (renderOrder (utcWindows tz date) rows2).map (fun p => (p.1, p.2.firstCurrent)) =
        (renderOrder (utcWindows tz date) rows).map (fun p => (p.1, p.2.firstCurrent))) := by
  refine ⟨?_, ?_, ?_⟩
  · intro p hp
    exact renderOrder_current_spec (utcWindows tz date) rows hsort p hp
  · have hs := renderOrder_sorted_key (utcWindows tz date) rows
    have hti := renderOrder_ties (utcWindows tz date) rows hsort
    have hcomb := hs.and hti
    refine hcomb.imp ?_
    intro a b hab
    intro ta tb ha hb
    have hka : keyOf a = ta := by rw [keyOf, ha]; rfl
    have hkb : keyOf b = tb := by rw [keyOf, hb]; rfl
    constructor
    · rw [← hka, ← hkb]
      exact hab.1
    · intro he
      exact hab.2 (by rw [hka, hkb]; exact he)
  · intro rows2 hperm hsort2
    have hm1 : (rows.map rowKey).Pairwise keyLe :=
      List.pairwise_map.mpr (hsort.imp (fun h => h))
    have hm2 : (rows2.map rowKey).Pairwise keyLe :=
      List.pairwise_map.mpr (hsort2.imp (fun h => h))
    have heq : rows.map rowKey = rows2.map rowKey :=
      List.eq_of_perm_of_sorted (hperm.map rowKey) hm1 hm2
    have hf : List.Forall₂ (fun a b => rowKey a = rowKey b) rows rows2 :=
      forall₂_of_map_eq rowKey rows rows2 heq
    have hrel := renderOrder_rel (fun a b => rowKey a = rowKey b) (utcWindows tz date)
      (fun a b h => congrArg Prod.fst h) (fun a b h => congrArg Prod.snd h)
      rows rows2 hf
    exact (assocRel_map_outKey _ _ _ hrel).symm

def wContactA : List Char := "Alice".data

def wContactB : List Char := "Bob".data

def wRow (c : List Char) (t : Int) : Row :=
  { contact_name := c, timestamp := t, from_me := false, sender_name := c, text := c }

/-- Two contacts, each with one `current`-window message, with equal first
timestamps (a tie broken alphabetically). -/
def wRows3 : List Row :=
  [wRow wContactA (mexTz.localToUTC (startLocalOf dstDate) + 60),
   wRow wContactB (mexTz.localToUTC (startLocalOf dstDate) + 60)]

/-- Witness for C3 at a concrete sorted result set. -/
theorem c3_conversation_ordering_witness :
    wRows3.Pairwise rowLe ∧
    (renderOrder (utcWindows mexTz dstDate) wRows3).Pairwise
      (fun a b => ∀ ta tb, a.2.firstCurrent = some ta → b.2.firstCurrent = some tb →
        ta ≤ tb ∧ (ta = tb → a.1 < b.1)) ∧
    ((renderOrder (utcWindows mexTz dstDate) wRows3).map (fun p => (p.1, p.2.firstCurrent)) =
      (renderOrder (utcWindows mexTz dstDate) wRows3).map (fun p => (p.1, p.2.firstCurrent))) :=
  ⟨by decide,
   (c3_conversation_ordering mexTz dstDate wRows3 (by decide)).2.1,
   (c3_conversation_ordering mexTz dstDate wRows3 (by decide)).2.2 wRows3
     (List.Perm.refl _) (by decide)⟩

/-- C9: every row of the three-day range query satisfies exactly one of the
three half-open window tests, lands in the matching bucket of its own
contact, and the buckets of all contacts together hold exactly the fetched
rows — none is dropped. -/
theorem c9_rows_partition (tz : Tz) (date : Ymd) (rows : List Row)
    (hord : tz.localToUTC (startLocalOf date) ≤ tz.localToUTC (startLocalOf date + 1440))
    (hq : ∀ r ∈ rows, (utcWindows tz date).prevLo ≤ r.timestamp ∧
        r.timestamp < (utcWindows tz date).nextHi) :
    (∀ r ∈ rows,
      ((if inPrevW (utcWindows tz date) r.timestamp = true then 1 else 0) +
        (if inCurW (utcWindows tz date) r.timestamp = true then 1 else 0) +
        (if inNextW (utcWindows tz date) r.timestamp = true then 1 else 0) : Nat) = 1) ∧
    (∀ r ∈ rows, ∃ p ∈ assembleConvs (utcWindows tz date) rows,
      p.1 = r.contact_name ∧ (r ∈ p.2.prev ∨ r ∈ p.2.current ∨ r ∈ p.2.next)) ∧
    msgCount (assembleConvs (utcWindows tz date) rows) = rows.length := by
  have hnn : ∀ r ∈ rows, bucketOf (utcWindows tz date) r.timestamp ≠ none :=
    fun r hr => bucketOf_isSome tz date r.timestamp hord (hq r hr).1 (hq r hr).2
  refine ⟨?_, ?_, ?_⟩
  · intro r hr
    exact exactly_one_window (utcWindows tz date).prevLo (utcWindows tz date).prevHi
      (utcWindows tz date).curHi (utcWindows tz date).nextHi r.timestamp
      (hq r hr).1 (hq r hr).2 hord
  · intro r hr
    rw [assembleConvs_eq_grouped]
    have hc : r.contact_name ∈ contactsIn rows :=
      (mem_contactsIn rows r.contact_name).mpr ⟨r, hr, rfl⟩
    refine ⟨(r.contact_name, groupFold (utcWindows tz date) rows r.contact_name),
      List.mem_map.mpr ⟨r.contact_name, hc, rfl⟩, rfl, ?_⟩
    have hrf : r ∈ rows.filter (fun r2 => decide (r2.contact_name = r.contact_name)) :=
      List.mem_filter.mpr ⟨hr, by simp⟩
    have hspec := foldl_addRow_spec (utcWindows tz date)
      (rows.filter (fun r2 => decide (r2.contact_name = r.contact_name))) emptyConv
    rcases hb : bucketOf (utcWindows tz date) r.timestamp with _ | b
    · exact absurd hb (hnn r hr)
    · have hmem : r ∈ (rows.filter (fun r2 => decide (r2.contact_name = r.contact_name))).filter
          (bPred (utcWindows tz date) b) :=
        List.mem_filter.mpr ⟨hrf, by simp [bPred, hb]⟩
      cases b
      · refine Or.inl ?_
        show r ∈ (groupFold (utcWindows tz date) rows r.contact_name).prev
        rw [groupFold, hspec.1]
        simp only [emptyConv, List.nil_append]
        exact hmem
      · refine Or.inr (Or.inl ?_)
        show r ∈ (groupFold (utcWindows tz date) rows r.contact_name).current
        rw [groupFold, hspec.2.1]
        simp only [emptyConv, List.nil_append]
        exact hmem
      · refine Or.inr (Or.inr ?_)
        show r ∈ (groupFold (utcWindows tz date) rows r.contact_name).next
        rw [groupFold, hspec.2.2.1]
        simp only [emptyConv, List.nil_append]
        exact hmem
  · rw [assembleConvs_eq_grouped, msgCount, List.map_map]
    have hcong : ((contactsIn rows).map
        ((fun p : List Char × ConvData =>
          p.2.prev.length + p.2.current.length + p.2.next.length) ∘
          (fun c => (c, groupFold (utcWindows tz date) rows c)))) =
        (contactsIn rows).map
          (fun c => (rows.filter (fun r2 => decide (r2.contact_name = c))).length) := by
      apply List.map_congr_left
      intro c _
      simp only [Function.comp_apply]
      have hspec := foldl_addRow_spec (utcWindows tz date)
        (rows.filter (fun r2 => decide (r2.contact_name = c))) emptyConv
      show (groupFold (utcWindows tz date) rows c).prev.length +
          (groupFold (utcWindows tz date) rows c).current.length +
          (groupFold (utcWindows tz date) rows c).next.length = _
      rw [groupFold, hspec.1, hspec.2.1, hspec.2.2.1]
      simp only [emptyConv, List.nil_append]
      exact filter_bucket_partition (utcWindows tz date) _
        (fun r2 h2 => hnn r2 (List.mem_filter.mp h2).1)
    rw [hcong]
    exact sum_filter_lengths rows

/-- One row in each of the three windows, on the DST-transition date. -/
def wRows9 : List Row :=
  [wRow wContactA (mexTz.localToUTC (startLocalOf dstDate) - 30),
   wRow wContactA (mexTz.localToUTC (startLocalOf dstDate) + 30),
   wRow wContactB (mexTz.localToUTC (startLocalOf dstDate + 1440) + 30)]

/-- Witness for C9 on the DST-transition date, with one row per window. -/
theorem c9_rows_partition_witness :
    (∀ r ∈ wRows9, (utcWindows mexTz dstDate).prevLo ≤ r.timestamp ∧
      r.timestamp < (utcWindows mexTz dstDate).nextHi) ∧
    msgCount (assembleConvs (utcWindows mexTz dstDate) wRows9) = wRows9.length :=
  ⟨by decide,
   (c9_rows_partition mexTz dstDate wRows9 (by decide) (by decide)).2.2⟩

/-! ### Display formatting (`format_messages_for_display`, lines 98-106) -/

def ampChar : Char := Char.ofNat 38

def ltChar : Char := Char.ofNat 60

def gtChar : Char := Char.ofNat 62

def bChar : Char := Char.ofNat 98

def rChar : Char := Char.ofNat 114

def sChar : Char := Char.ofNat 115

def zeroChar : Char := Char.ofNat 48

def brStr : List Char := "<br>".data

/-- `html.escape` (Python stdlib, quote=True), character by character. -/
def escChar (c : Char) : List Char :=
  if c = ampChar then "&amp;".data
  else if c = ltChar then "&lt;".data
  else if c = gtChar then "&gt;".data
  else if c = quotChar then "&quot;".data
  else if c = aposChar then "&#x27;".data
  else [c]

def htmlEscape (s : List Char) : List Char :=
  s.flatMap escChar

def nlRepl (c : Char) : List Char :=
  if c = nlChar then brStr else [c]

/-- `.replace('\n', '<br>')`. -/
def replaceNlBr (s : List Char) : List Char :=
  s.flatMap nlRepl

/-- `html.escape(text).replace('\n', '<br>')` (line 104). -/
def escapeNl (s : List Char) : List Char :=
  replaceNlBr (htmlEscape s)

/-- `Nat.toDigits`-based zero-padded two-digit rendering. -/
def pad2 (n : Nat) : List Char :=
  if n < 10 then zeroChar :: Nat.toDigits 10 n else Nat.toDigits 10 n

def colonStr : List Char := ":".data

def spStr : List Char := " ".data

def amStr : List Char := "AM".data

def pmStr : List Char := "PM".data

/-- `local_time.strftime('%I:%M %p').lstrip('0')` (line 103), from the local
wall-clock minute. -/
def timeStr (localMin : Int) : List Char :=
  let h := ((localMin / 60) % 24).toNat
  let m := (localMin % 60).toNat
  let h12 := (h + 11) % 12 + 1
  (pad2 h12 ++ colonStr ++ pad2 m ++ spStr ++ (if h < 12 then amStr else pmStr)).dropWhile
    (fun c => c == zeroChar)

/-- A display-ready message as built by `format_messages_for_display`. -/
structure DispMsg where
  from_me : Bool
  text : List Char
  time_str : List Char
deriving DecidableEq

def formatMessage (tz : Tz) (r : Row) : DispMsg :=
  { from_me := r.from_me, text := escapeNl r.text,
    time_str := timeStr (tz.utcToLocal r.timestamp) }

def formatMessages (tz : Tz) (msgs : List Row) : List DispMsg :=
  msgs.map (formatMessage tz)

/-! ### `urllib.parse.quote` for the slug (line 172) -/

def utf8Bytes (c : Char) : List Nat :=
  let n := c.toNat
  if n < 128 then [n]
  else if n < 2048 then [192 + n / 64, 128 + n % 64]
  else if n < 65536 then [224 + n / 4096, 128 + (n / 64) % 64, 128 + n % 64]
  else [240 + n / 262144, 128 + (n / 4096) % 64, 128 + (n / 64) % 64, 128 + n % 64]

def hexDigit (n : Nat) : Char :=
  if n < 10 then Char.ofNat (48 + n) else Char.ofNat (55 + n)

def quoteSafe (c : Char) : Bool :=
  (decide (65 ≤ c.toNat) && decide (c.toNat ≤ 90)) ||
  (decide (97 ≤ c.toNat) && decide (c.toNat ≤ 122)) ||
  (decide (48 ≤ c.toNat) && decide (c.toNat ≤ 57)) ||
  c == Char.ofNat 95 || c == Char.ofNat 46 || c == Char.ofNat 45 ||
  c == Char.ofNat 126 || c == Char.ofNat 47

def pyQuote (s : List Char) : List Char :=
  s.flatMap (fun c =>
    if quoteSafe c then [c]
    else (utf8Bytes c).flatMap
      (fun b => [Char.ofNat 37, hexDigit (b / 16), hexDigit (b % 16)]))

/-! ### Human-readable dates (`strftime('%B %d, %Y')`) -/

def monthName : Int → List Char
  | 1 => "January".data
  | 2 => "February".data
  | 3 => "March".data
  | 4 => "April".data
  | 5 => "May".data
  | 6 => "June".data
  | 7 => "July".data
  | 8 => "August".data
  | 9 => "September".data
  | 10 => "October".data
  | 11 => "November".data
  | 12 => "December".data
  | _ => []

def pad4 (n : Int) : List Char :=
  let m := n.toNat
  if m < 10 then zeroChar :: zeroChar :: zeroChar :: Nat.toDigits 10 m
  else if m < 100 then zeroChar :: zeroChar :: Nat.toDigits 10 m
  else if m < 1000 then zeroChar :: Nat.toDigits 10 m
  else Nat.toDigits 10 m

def commaSpStr : List Char := ", ".data

def hrDate (d : Ymd) : List Char :=
  monthName d.month ++ spStr ++ pad2 d.day.toNat ++ commaSpStr ++ pad4 d.year

/-! ### The HTML templates, transcribed from lines 177-227 with the
`format`/f-string slots cut out.  Doubled braces of the Python source are
literal braces in the output, written as hex escapes here, as are the
apostrophes. -/

def tplP1 : List Char := "\n    <!DOCTYPE html><html lang=\"en\"><head><meta charset=\"UTF-8\">\n    <meta name=\"viewport\" content=\"width=device-width, initial-scale=1.0\">\n    <link rel=\"stylesheet\" href=\"https://fonts.googleapis.com/css?family=Roboto:400,600\">\n    <title>Chat Logs for ".data

def tplP2 : List Char := "</title><style>\n    html,body\x7bfont-family:\"Roboto\",sans-serif;margin:0;padding:0;background-color:#f0f0f0\x7dh1,h2\x7bcolor:#333;text-align:center;margin:20px 0\x7d.conversation_group\x7bbackground:#efe7dd url(\"https://cloud.githubusercontent.com/assets/398893/15136779/4e765036-1639-11e6-9201-67e728e86f39.jpg\") repeat;padding:10px 20px;margin:20px auto;max-width:800px;border:1px solid #ccc;box-shadow:0 2px 5px rgba(0,0,0,.1);border-radius:8px\x7d.conversation_group h2\x7bcolor:#075e54;border-bottom:2px solid #128c7e;padding-bottom:10px;display:flex;justify-content:space-between;align-items:center\x7d.conversation-container\x7boverflow-x:hidden;padding:0 16px\x7d.conversation-container::after\x7bcontent:\"\";display:table;clear:both\x7d.message\x7bcolor:#000;clear:both;line-height:18px;font-size:15px;padding:8px;position:relative;margin:8px 0;max-width:85%;word-wrap:break-word;box-shadow:0 1px 1px rgba(0,0,0,.1)\x7d.message::after\x7bposition:absolute;content:\"\";width:0;height:0;border-style:solid\x7d.metadata\x7bdisplay:inline-block;float:right;padding:0 0 0 7px;position:relative;bottom:-4px\x7d.metadata .time\x7bcolor:rgba(0,0,0,.45);font-size:11px;display:inline-block\x7d.message.received\x7bbackground:#fff;border-radius:0 5px 5px 5px;float:left\x7d.message.received::after\x7bborder-width:0 10px 10px 0;border-color:transparent #fff transparent transparent;top:0;left:-10px\x7d.message.sent\x7bbackground:#e1ffc7;border-radius:5px 0 5px 5px;float:right\x7d.message.sent::after\x7bborder-width:0 0 10px 10px;border-color:transparent transparent transparent #e1ffc7;top:0;right:-10px\x7d.day-loader\x7bfont-size:20px;font-weight:700;text-decoration:none;color:#075e54;cursor:pointer;padding:0 10px;user-select:none\x7d.day-loader:hover\x7bcolor:#128c7e\x7d.invisible\x7bvisibility:hidden\x7d.collapsed\x7bdisplay:none\x7d.day-divider\x7btext-align:center;margin:15px 0;clear:both\x7d.date-label\x7bbackground:#e1f2fb;color:#5e7a8c;padding:4px 12px;border-radius:12px;font-size:12px;font-weight:600\x7d\n    </style></head><body><h1>Chat Logs for ".data

def tplP3 : List Char := "</h1>".data

def tplP4 : List Char := "\n    <script>\n    document.addEventListener(\x27click\x27, function(e) \x7b\n        if (e.target.matches(\x27.day-loader\x27)) \x7b\n            const targetId = e.target.getAttribute(\x27data-target\x27);\n            const targetEl = document.getElementById(targetId);\n            if (targetEl) \x7b\n                targetEl.classList.remove(\x27collapsed\x27);\n                e.target.classList.add(\x27invisible\x27);\n            \x7d\n        \x7d\n    \x7d);\n    </script></body></html>".data

def msgT1 : List Char := "<div class=\x27message ".data

def msgT2 : List Char := "\x27>".data

def msgT3 : List Char := "<span class=\x27metadata\x27><span class=\x27time\x27>".data

def msgT4 : List Char := "</span></span></div>".data

def dvT1 : List Char := "<div class=\"day-divider\"><span class=\"date-label\">".data

def dvT2 : List Char := "</span></div>".data

def cvT1 : List Char := "\n        <div class=\"conversation_group\">\n            <h2>\n                <span class=\"day-loader ".data

def cvT2 : List Char := "\" data-target=\"".data

def cvT3 : List Char := "\">«</span>\n                ".data

def cvT4 : List Char := "\n                <span class=\"day-loader ".data

def cvT5 : List Char := "\" data-target=\"".data

def cvT6 : List Char := "\">»</span>\n            </h2>\n            <div class=\"conversation-container\">\n                <div id=\"".data

def cvT7 : List Char := "\" class=\"collapsed\">".data

def cvT9 : List Char := "</div>\n                ".data

def cvT11 : List Char := "\n                <div id=\"".data

def cvT12 : List Char := "\" class=\"collapsed\">".data

def cvT14 : List Char := "</div>\n            </div>\n        </div>".data

def sentStr : List Char := "sent".data

def receivedStr : List Char := "received".data

def invisibleStr : List Char := "invisible".data

def prevIdT : List Char := "prev-msg-".data

def nextIdT : List Char := "next-msg-".data

/-- One message bubble (line 197, `message_template.format(...)`). -/
def messageHtml (m : DispMsg) : List Char :=
  msgT1 ++ (if m.from_me then sentStr else receivedStr) ++ msgT2 ++ m.text ++
    msgT3 ++ m.time_str ++ msgT4

/-- `"".join(message_template.format(...) for m in bucket)` (lines 206-208). -/
def msgsHtml (tz : Tz) (l : List Row) : List Char :=
  ((formatMessages tz l).map messageHtml).flatten

/-- One conversation group block (the f-string of lines 215-227). -/
def convHtml (tz : Tz) (hrd hrdPrev hrdNext : List Char)
    (p : List Char × ConvData) : List Char :=
  let prevHtml := msgsHtml tz p.2.prev
  let currHtml := msgsHtml tz p.2.current
  let nextHtml := msgsHtml tz p.2.next
  let slug := pyQuote p.1
  let prevId := prevIdT ++ slug
  let nextId := nextIdT ++ slug
  let initialDiv := dvT1 ++ hrd ++ dvT2
  let prevDiv := if prevHtml.isEmpty then [] else dvT1 ++ hrdPrev ++ dvT2
  let nextDiv := if nextHtml.isEmpty then [] else dvT1 ++ hrdNext ++ dvT2
  cvT1 ++ (if prevHtml.isEmpty then invisibleStr else []) ++ cvT2 ++ prevId ++ cvT3 ++
    htmlEscape p.1 ++ cvT4 ++ (if nextHtml.isEmpty then invisibleStr else []) ++ cvT5 ++
    nextId ++ cvT6 ++ prevId ++ cvT7 ++ prevDiv ++ prevHtml ++ cvT9 ++ initialDiv ++
    currHtml ++ cvT11 ++ nextId ++ cvT12 ++ nextDiv ++ nextHtml ++ cvT14

/-- `"".join(conversations_html)` over the assembled order (lines 204-228). -/
def conversationsHtml (tz : Tz) (date : Ymd) (rows : List Row) : List Char :=
  ((renderOrder (utcWindows tz date) rows).map
    (convHtml tz (hrDate date) (hrDate (civilFromDays (daysFromCivil date - 1)))
      (hrDate (civilFromDays (daysFromCivil date + 1))))).flatten

/-- The complete rendered document (line 230, `html_template.format(...)`). -/
def finalDoc (tz : Tz) (date : Ymd) (rows : List Row) : List Char :=
  tplP1 ++ hrDate date ++ tplP2 ++ hrDate date ++ tplP3 ++
    conversationsHtml tz date rows ++ tplP4

/-! ### The search run's observable outcome (lines 143-237) -/

structure RunOut where
  out : List (List Char)
  err : List (List Char)
  written : Option (List Char × List Char)
  exitCode : Int
deriving DecidableEq

def noMsgsMsg (dateStr : List Char) : List Char :=
  "No messages found for ".data ++ dateStr

def successMsg (fname : List Char) : List Char :=
  "Successfully wrote chat log to \x27".data ++ fname ++ "\x27".data

/-- The fixed prefix of the write-failure message (the suffix is the OS
exception text). -/
def writeErrMsg (fname : List Char) : List Char :=
  "Error writing to file \x27".data ++ fname ++ "\x27: ".data

def outputFilename (dbBase dateStr : List Char) : List Char :=
  dbBase ++ "_".data ++ dateStr ++ ".html".data

/-- The tail of `search_chats_by_date` after a successful date/timezone
parse and query, as a function of the fetched rows and of whether the
output-file write succeeds.  Note the write-failure branch (lines 236-237)
prints to stderr but does not call `sys.exit`, so the process still ends
with exit code 0. -/
def searchRun (tz : Tz) (date : Ymd) (dateStr dbBase : List Char)
    (rows : List Row) (writeOk : Bool) : RunOut :=
  if rows.any (fun r => inCurW (utcWindows tz date) r.timestamp) = false then
    { out := [noMsgsMsg dateStr], err := [], written := none, exitCode := 0 }
  else
    let fname := outputFilename dbBase dateStr
    let doc := finalDoc tz date rows
    if writeOk then
      { out := [successMsg fname], err := [], written := some (fname, doc), exitCode := 0 }
    else
      { out := [], err := [writeErrMsg fname], written := none, exitCode := 0 }

/-- C4: when no fetched message's timestamp falls inside the `current`
window, the search prints the "No messages found" line, writes no output
file, and finishes with exit code 0 (success). -/
theorem c4_no_messages (tz : Tz) (date : Ymd) (dateStr dbBase : List Char)
    (rows : List Row) (writeOk : Bool)
    (h : ∀ r ∈ rows, inCurW (utcWindows tz date) r.timestamp = false) :
    searchRun tz date dateStr dbBase rows writeOk =
      { out := [noMsgsMsg dateStr], err := [], written := none, exitCode := 0 } := by
  rw [searchRun]
  have hany : rows.any (fun r => inCurW (utcWindows tz date) r.timestamp) = false := by
    rw [List.any_eq_false]
    intro r hr
    simp [h r hr]
  rw [hany]
  rw [if_pos rfl]

def dstDateStr : List Char := "2022-04-03".data

def wBase : List Char := "ChatLog".data

/-- A result set whose only row is in the `prev` window. -/
def wRows4 : List Row :=
  [wRow wContactA (mexTz.localToUTC (startLocalOf dstDate) - 30)]

/-- Witness for C4 at a concrete store and date. -/
theorem c4_no_messages_witness :
    (∀ r ∈ wRows4, inCurW (utcWindows mexTz dstDate) r.timestamp = false) ∧
    searchRun mexTz dstDate dstDateStr wBase wRows4 true =
      { out := [noMsgsMsg dstDateStr], err := [], written := none, exitCode := 0 } :=
  ⟨by decide, c4_no_messages mexTz dstDate dstDateStr wBase wRows4 true (by decide)⟩

/-- C6 counterexample: at a concrete store, date and failing write, the
tool reports the error on stderr but its exit code is 0, not non-zero —
the `except IOError` handler of lines 236-237 never calls `sys.exit(1)`. -/
theorem c6_counterexample :
    (searchRun mexTz dstDate dstDateStr wBase wRows3 false).err =
      [writeErrMsg (outputFilename wBase dstDateStr)] ∧
    ¬ (searchRun mexTz dstDate dstDateStr wBase wRows3 false).exitCode ≠ 0 := by
  constructor
  · decide
  · decide

/-- C6 as amended: when writing the output file fails (and there was a
message in the `current` window, so a write was attempted), the tool
reports the error on the error stream and terminates with exit code 0
(success), writing no file. -/
theorem c6_write_failure (tz : Tz) (date : Ymd) (dateStr dbBase : List Char)
    (rows : List Row)
    (h : ∃ r ∈ rows, inCurW (utcWindows tz date) r.timestamp = true) :
    searchRun tz date dateStr dbBase rows false =
      { out := [], err := [writeErrMsg (outputFilename dbBase dateStr)],
        written := none, exitCode := 0 } := by
  rw [searchRun]
  have hany : rows.any (fun r => inCurW (utcWindows tz date) r.timestamp) = true := by
    rw [List.any_eq_true]
    rcases h with ⟨r, hr, hc⟩
    exact ⟨r, hr, hc⟩
  rw [hany]
  simp

/-- Witness for the amended C6. -/
theorem c6_write_failure_witness :
    (∃ r ∈ wRows3, inCurW (utcWindows mexTz dstDate) r.timestamp = true) ∧
    searchRun mexTz dstDate dstDateStr wBase wRows3 false =
      { out := [], err := [writeErrMsg (outputFilename wBase dstDateStr)],
        written := none, exitCode := 0 } :=
  ⟨by decide, c6_write_failure mexTz dstDate dstDateStr wBase wRows3 (by decide)⟩

/-! ### C10: the document does not depend on the stored sender_name -/

/-- All row fields that can reach the rendered document. -/
def projRow (r : Row) : List Char × Int × Bool × List Char :=
  (r.contact_name, r.timestamp, r.from_me, r.text)

theorem formatMessage_proj (tz : Tz) (r1 r2 : Row) (h : projRow r1 = projRow r2) :
    formatMessage tz r1 = formatMessage tz r2 := by
  have h1 : r1.timestamp = r2.timestamp := congrArg (fun x => x.2.1) h
  have h2 : r1.from_me = r2.from_me := congrArg (fun x => x.2.2.1) h
  have h3 : r1.text = r2.text := congrArg (fun x => x.2.2.2) h
  rw [formatMessage, formatMessage, h1, h2, h3]

theorem formatMessages_proj (tz : Tz) (l1 l2 : List Row)
    (h : List.Forall₂ (fun a b => projRow a = projRow b) l1 l2) :
    formatMessages tz l1 = formatMessages tz l2 := by
  induction h with
  | nil => rfl
  | @cons a b t1 t2 hab _ ih =>
    rw [formatMessages, List.map_cons, formatMessage_proj tz a b hab]
    rw [formatMessages] at ih
    rw [ih]
    rfl

theorem convHtml_proj (tz : Tz) (hrd hrdPrev hrdNext : List Char)
    (p q : List Char × ConvData)
    (h : PairRel (fun a b => projRow a = projRow b) p q) :
    convHtml tz hrd hrdPrev hrdNext p = convHtml tz hrd hrdPrev hrdNext q := by
  have e1 : msgsHtml tz p.2.prev = msgsHtml tz q.2.prev := by
    rw [msgsHtml, msgsHtml, formatMessages_proj tz _ _ h.2.1]
  have e2 : msgsHtml tz p.2.current = msgsHtml tz q.2.current := by
    rw [msgsHtml, msgsHtml, formatMessages_proj tz _ _ h.2.2.1]
  have e3 : msgsHtml tz p.2.next = msgsHtml tz q.2.next := by
    rw [msgsHtml, msgsHtml, formatMessages_proj tz _ _ h.2.2.2.1]
  rw [convHtml, convHtml, e1, e2, e3, h.1]

theorem conversationsHtml_proj (tz : Tz) (date : Ymd) (rows1 rows2 : List Row)
    (h : rows1.map projRow = rows2.map projRow) :
    conversationsHtml tz date rows1 = conversationsHtml tz date rows2 := by
  have hf := forall₂_of_map_eq projRow rows1 rows2 h
  have hrel := renderOrder_rel (fun a b => projRow a = projRow b) (utcWindows tz date)
    (fun a b hh => congrArg Prod.fst hh) (fun a b hh => congrArg (fun x => x.2.1) hh)
    rows1 rows2 hf
  rw [conversationsHtml, conversationsHtml]
  congr 1
  revert hrel
  generalize renderOrder (utcWindows tz date) rows1 = A
  generalize renderOrder (utcWindows tz date) rows2 = B
  intro hrel
  induction hrel with
  | nil => rfl
  | @cons a b t1 t2 hab _ ih =>
    rw [List.map_cons, List.map_cons, ih, convHtml_proj tz _ _ _ a b hab]

/-- C10: two fetched result sets that agree row-for-row on contact name,
timestamp, from_me and text — but may differ arbitrarily in `sender_name` —
render to identical documents: only the contact name, from_me, the escaped
text and the formatted local time ever reach the templates. -/
theorem c10_sender_independent (tz : Tz) (date : Ymd) (rows1 rows2 : List Row)
    (h : rows1.map projRow = rows2.map projRow) :
    finalDoc tz date rows1 = finalDoc tz date rows2 := by
  rw [finalDoc, finalDoc, conversationsHtml_proj tz date rows1 rows2 h]

/-- Rows as in `wRows3`, with one `prev`-window message, but with
scrambled sender names. -/
def wRows10a : List Row :=
  [{ contact_name := wContactA, timestamp := mexTz.localToUTC (startLocalOf dstDate) + 60,
     from_me := false, sender_name := wContactA, text := sampleTwoWords },
   { contact_name := wContactB, timestamp := mexTz.localToUTC (startLocalOf dstDate) - 30,
     from_me := true, sender_name := strMe, text := sampleOneWord }]

def wRows10b : List Row :=
  [{ contact_name := wContactA, timestamp := mexTz.localToUTC (startLocalOf dstDate) + 60,
     from_me := false, sender_name := strThem, text := sampleTwoWords },
   { contact_name := wContactB, timestamp := mexTz.localToUTC (startLocalOf dstDate) - 30,
     from_me := true, sender_name := strUnknown, text := sampleOneWord }]

/-- Witness for C10: concrete stores differing only in sender names. -/
theorem c10_sender_independent_witness :
    wRows10a.map projRow = wRows10b.map projRow ∧
    finalDoc mexTz dstDate wRows10a = finalDoc mexTz dstDate wRows10b :=
  ⟨by decide, c10_sender_independent mexTz dstDate wRows10a wRows10b (by decide)⟩

/-! ### C5: HTML escaping -/

/-- The combined per-character action of lines 104:
escape, then turn newlines into `<br>`. -/
def combChar (c : Char) : List Char :=
  if c = nlChar then brStr else escChar c

theorem escapeNl_flatMap (s : List Char) : escapeNl s = s.flatMap combChar := by
  induction s with
  | nil => rfl
  | cons c t ih =>
    have hstep : escapeNl (c :: t) = replaceNlBr (escChar c) ++ escapeNl t := by
      rw [escapeNl, escapeNl, htmlEscape, List.flatMap_cons, replaceNlBr, replaceNlBr,
        List.flatMap_append]
      rfl
    rw [hstep, List.flatMap_cons, ih]
    congr 1
    rw [combChar]
    by_cases hc : c = nlChar
    · rw [if_pos hc, hc]
      decide
    · rw [if_neg hc]
      rw [escChar]
      split_ifs with h1 h2 h3 h4 h5
      · decide
      · decide
      · decide
      · decide
      · decide
      · rw [replaceNlBr, List.flatMap_cons]
        simp [nlRepl, hc]

theorem escapeNl_append (a b : List Char) :
    escapeNl (a ++ b) = escapeNl a ++ escapeNl b := by
  rw [escapeNl_flatMap, escapeNl_flatMap, escapeNl_flatMap, List.flatMap_append]

theorem escapeNl_infix_mono (x s : List Char) (h : x <:+: s) :
    escapeNl x <:+: escapeNl s := by
  rcases h with ⟨u, v, huv⟩
  refine ⟨escapeNl u, escapeNl v, ?_⟩
  rw [← huv, escapeNl_append, escapeNl_append]

/-- Scanner invariant of escaped-and-br-converted text: every `<` is the
start of a `<br>` (so in particular no `<s...` tag can occur). -/
def goodLt : List Char → Bool
  | [] => true
  | c :: t =>
    if c = ltChar then
      match t with
      | [] => false
      | c2 :: _ => if c2 = bChar then goodLt t else false
    else goodLt t

theorem goodLt_cons_ne (c : Char) (t : List Char) (hc : ¬ c = ltChar)
    (ht : goodLt t = true) : goodLt (c :: t) = true := by
  simp only [goodLt]
  rw [if_neg hc]
  exact ht

theorem goodLt_tail (c : Char) (t : List Char) (h : goodLt (c :: t) = true) :
    goodLt t = true := by
  simp only [goodLt] at h
  by_cases hc : c = ltChar
  · rw [if_pos hc] at h
    cases t with
    | nil => exact rfl
    | cons c2 t2 =>
      have h2 : (if c2 = bChar then goodLt (c2 :: t2) else false) = true := h
      by_cases hb : c2 = bChar
      · rw [if_pos hb] at h2
        exact h2
      · rw [if_neg hb] at h2
        simp at h2
  · rw [if_neg hc] at h
    exact h

theorem goodLt_head_lt (t : List Char) (h : goodLt (ltChar :: t) = true) :
    ∃ t2, t = bChar :: t2 := by
  cases t with
  | nil =>
    exfalso
    have h2 : false = true := h
    exact absurd h2 (by decide)
  | cons c2 t2 =>
    by_cases hb : c2 = bChar
    · exact ⟨t2, by rw [hb]⟩
    · exfalso
      have h2 : (if c2 = bChar then goodLt (c2 :: t2) else false) = true := h
      rw [if_neg hb] at h2
      simp at h2

theorem goodLt_append_no_lt (a rest : List Char) (ha : ltChar ∉ a)
    (hr : goodLt rest = true) : goodLt (a ++ rest) = true := by
  induction a with
  | nil => exact hr
  | cons c t ih =>
    have hc : ¬ c = ltChar := fun he => ha (by simp [he])
    have ht : goodLt (t ++ rest) = true := ih (fun hm => ha (by simp [hm]))
    exact goodLt_cons_ne c (t ++ rest) hc ht

theorem lt_notin_escChar (c : Char) : ltChar ∉ escChar c := by
  rw [escChar]
  split_ifs with h1 h2 h3 h4 h5
  · decide
  · decide
  · decide
  · decide
  · decide
  · simp only [List.mem_singleton]
    exact fun he => h2 he.symm

theorem goodLt_br_append (rest : List Char) (hr : goodLt rest = true) :
    goodLt (brStr ++ rest) = true := by
  rw [show brStr = ltChar :: bChar :: rChar :: gtChar :: [] from by decide]
  show goodLt (ltChar :: bChar :: rChar :: gtChar :: rest) = true
  have h3 : goodLt (gtChar :: rest) = true := goodLt_cons_ne _ _ (by decide) hr
  have h2 : goodLt (rChar :: gtChar :: rest) = true := goodLt_cons_ne _ _ (by decide) h3
  have h1 : goodLt (bChar :: rChar :: gtChar :: rest) = true :=
    goodLt_cons_ne _ _ (by decide) h2
  show (if bChar = bChar then goodLt (bChar :: rChar :: gtChar :: rest) else false) = true
  rw [if_pos rfl]
  exact h1

theorem goodLt_escapeNl (s : List Char) : goodLt (escapeNl s) = true := by
  rw [escapeNl_flatMap]
  induction s with
  | nil => rfl
  | cons c t ih =>
    rw [List.flatMap_cons]
    by_cases hc : c = nlChar
    · rw [show combChar c = brStr from by rw [combChar, if_pos hc]]
      exact goodLt_br_append _ ih
    · rw [show combChar c = escChar c from by rw [combChar, if_neg hc]]
      exact goodLt_append_no_lt _ _ (lt_notin_escChar c) ih

theorem not_hasSub_lts (p : List Char) : ∀ s : List Char, goodLt s = true →
    hasSub (ltChar :: sChar :: p) s = false := by
  intro s
  induction s with
  | nil =>
    intro _
    rfl
  | cons c t ih =>
    intro hs
    rw [hasSub, ih (goodLt_tail c t hs), Bool.or_false, startsWithL]
    by_cases hc : c = ltChar
    · subst hc
      rcases goodLt_head_lt t hs with ⟨t2, ht2⟩
      subst ht2
      rw [startsWithL]
      rw [show (sChar == bChar) = false from by decide]
      simp
    · rw [show (ltChar == c) = false from by
        simp only [beq_eq_false_iff_ne, ne_eq]
        exact fun he => hc he.symm]
      simp

theorem infixTrans (x y z : List Char) (h1 : x <:+: y) (h2 : y <:+: z) : x <:+: z := by
  rcases h1 with ⟨u1, v1, e1⟩
  rcases h2 with ⟨u2, v2, e2⟩
  refine ⟨u2 ++ u1, v1 ++ v2, ?_⟩
  rw [← e2, ← e1]
  simp [List.append_assoc]

theorem infixExtendLeft (a x s : List Char) (h : x <:+: s) : x <:+: a ++ s := by
  rcases h with ⟨u, v, e⟩
  refine ⟨a ++ u, v, ?_⟩
  rw [← e]
  simp [List.append_assoc]

theorem infixExtendRight (x s b : List Char) (h : x <:+: s) : x <:+: s ++ b := by
  rcases h with ⟨u, v, e⟩
  refine ⟨u, v ++ b, ?_⟩
  rw [← e]
  simp [List.append_assoc]

theorem startsWithL_iff (p : List Char) : ∀ t : List Char,
    (startsWithL p t = true ↔ p <+: t) := by
  induction p with
  | nil =>
    intro t
    simp [startsWithL]
  | cons c ps ih =>
    intro t
    cases t with
    | nil =>
      simp only [startsWithL]
      constructor
      · intro h
        exact absurd h (by simp)
      · intro h
        rcases h with ⟨u, hu⟩
        simp at hu
    | cons c2 ts =>
      rw [startsWithL]
      constructor
      · intro h
        simp only [Bool.and_eq_true] at h
        rcases h with ⟨hcc, hrest⟩
        have hce : c = c2 := by simpa using hcc
        rcases (ih ts).mp hrest with ⟨u, hu⟩
        exact ⟨u, by rw [← hu, hce]; rfl⟩
      · intro h
        rcases h with ⟨u, hu⟩
        simp only [List.cons_append, List.cons.injEq] at hu
        rw [Bool.and_eq_true]
        constructor
        · simp [hu.1]
        · exact (ih ts).mpr ⟨u, hu.2⟩

theorem hasSub_iff (p : List Char) : ∀ t : List Char, (hasSub p t = true ↔ p <:+: t) := by
  intro t
  induction t with
  | nil =>
    rw [hasSub]
    constructor
    · intro h
      have : p = [] := by simpa using h
      simp [this]
    · intro h
      rcases h with ⟨u, v, he⟩
      simp only [List.append_eq_nil] at he
      simp [he.1.2]
  | cons c ts ih =>
    rw [hasSub]
    constructor
    · intro h
      simp only [Bool.or_eq_true] at h
      rcases h with h | h
      · rcases (startsWithL_iff p (c :: ts)).mp h with ⟨u, hu⟩
        exact ⟨[], u, by simpa using hu⟩
      · exact infixExtendLeft [c] p ts (ih.mp h)
    · intro h
      rcases h with ⟨u, v, he⟩
      cases u with
      | nil =>
        have : startsWithL p (c :: ts) = true :=
          (startsWithL_iff p (c :: ts)).mpr ⟨v, by simpa using he⟩
        rw [this]
        simp
      | cons u0 us =>
        have hts : p <:+: ts := by
          refine ⟨us, v, ?_⟩
          have := he
          simp only [List.cons_append] at this
          exact (List.cons.injEq _ _ _ _).mp this |>.2
        rw [ih.mpr hts]
        simp

theorem infix_flatten_of_mem {α : Type} (f : α → List Char) (l : List α) (x : α)
    (hx : x ∈ l) : f x <:+: (l.map f).flatten := by
  induction l with
  | nil => simp at hx
  | cons y t ih =>
    rw [List.map_cons, List.flatten_cons]
    rcases List.mem_cons.mp hx with h | h
    · subst h
      exact ⟨[], (t.map f).flatten, by simp⟩
    · exact infixExtendLeft (f y) _ _ (ih h)

theorem text_infix_messageHtml (m : DispMsg) : m.text <:+: messageHtml m :=
  ⟨msgT1 ++ (if m.from_me then sentStr else receivedStr) ++ msgT2,
   msgT3 ++ m.time_str ++ msgT4,
   by rw [messageHtml]; simp [List.append_assoc]⟩

theorem bucket_html_infix_conv (tz : Tz) (h1 h2 h3 : List Char)
    (p : List Char × ConvData) :
    msgsHtml tz p.2.prev <:+: convHtml tz h1 h2 h3 p ∧
    msgsHtml tz p.2.current <:+: convHtml tz h1 h2 h3 p ∧
    msgsHtml tz p.2.next <:+: convHtml tz h1 h2 h3 p := by
  refine ⟨?_, ?_, ?_⟩
  · exact ⟨cvT1 ++ (if (msgsHtml tz p.2.prev).isEmpty then invisibleStr else []) ++ cvT2 ++
      (prevIdT ++ pyQuote p.1) ++ cvT3 ++ htmlEscape p.1 ++ cvT4 ++
      (if (msgsHtml tz p.2.next).isEmpty then invisibleStr else []) ++ cvT5 ++
      (nextIdT ++ pyQuote p.1) ++ cvT6 ++ (prevIdT ++ pyQuote p.1) ++ cvT7 ++
      (if (msgsHtml tz p.2.prev).isEmpty then [] else dvT1 ++ h2 ++ dvT2),
      cvT9 ++ (dvT1 ++ h1 ++ dvT2) ++ msgsHtml tz p.2.current ++ cvT11 ++
      (nextIdT ++ pyQuote p.1) ++ cvT12 ++
      (if (msgsHtml tz p.2.next).isEmpty then [] else dvT1 ++ h3 ++ dvT2) ++
      msgsHtml tz p.2.next ++ cvT14,
      by rw [convHtml]; try simp [List.append_assoc]⟩
  · exact ⟨cvT1 ++ (if (msgsHtml tz p.2.prev).isEmpty then invisibleStr else []) ++ cvT2 ++
      (prevIdT ++ pyQuote p.1) ++ cvT3 ++ htmlEscape p.1 ++ cvT4 ++
      (if (msgsHtml tz p.2.next).isEmpty then invisibleStr else []) ++ cvT5 ++
      (nextIdT ++ pyQuote p.1) ++ cvT6 ++ (prevIdT ++ pyQuote p.1) ++ cvT7 ++
      (if (msgsHtml tz p.2.prev).isEmpty then [] else dvT1 ++ h2 ++ dvT2) ++
      msgsHtml tz p.2.prev ++ cvT9 ++ (dvT1 ++ h1 ++ dvT2),
      cvT11 ++ (nextIdT ++ pyQuote p.1) ++ cvT12 ++
      (if (msgsHtml tz p.2.next).isEmpty then [] else dvT1 ++ h3 ++ dvT2) ++
      msgsHtml tz p.2.next ++ cvT14,
      by rw [convHtml]; try simp [List.append_assoc]⟩
  · exact ⟨cvT1 ++ (if (msgsHtml tz p.2.prev).isEmpty then invisibleStr else []) ++ cvT2 ++
      (prevIdT ++ pyQuote p.1) ++ cvT3 ++ htmlEscape p.1 ++ cvT4 ++
      (if (msgsHtml tz p.2.next).isEmpty then invisibleStr else []) ++ cvT5 ++
      (nextIdT ++ pyQuote p.1) ++ cvT6 ++ (prevIdT ++ pyQuote p.1) ++ cvT7 ++
      (if (msgsHtml tz p.2.prev).isEmpty then [] else dvT1 ++ h2 ++ dvT2) ++
      msgsHtml tz p.2.prev ++ cvT9 ++ (dvT1 ++ h1 ++ dvT2) ++ msgsHtml tz p.2.current ++
      cvT11 ++ (nextIdT ++ pyQuote p.1) ++ cvT12 ++
      (if (msgsHtml tz p.2.next).isEmpty then [] else dvT1 ++ h3 ++ dvT2),
      cvT14,
      by rw [convHtml]; try simp [List.append_assoc]⟩

theorem convsHtml_infix_doc (tz : Tz) (date : Ymd) (rows : List Row)
    (p : List Char × ConvData) (hp : p ∈ renderOrder (utcWindows tz date) rows) :
    convHtml tz (hrDate date) (hrDate (civilFromDays (daysFromCivil date - 1)))
      (hrDate (civilFromDays (daysFromCivil date + 1))) p <:+: finalDoc tz date rows := by
  have h1 : convHtml tz (hrDate date) (hrDate (civilFromDays (daysFromCivil date - 1)))
      (hrDate (civilFromDays (daysFromCivil date + 1))) p <:+: conversationsHtml tz date rows := by
    rw [conversationsHtml]
    exact infix_flatten_of_mem _ _ p hp
  refine infixTrans _ _ _ h1 ?_
  refine ⟨tplP1 ++ hrDate date ++ tplP2 ++ hrDate date ++ tplP3, tplP4, ?_⟩
  rw [finalDoc]
  try simp [List.append_assoc]

def scriptTag : List Char := "<script>".data

/-- C5: every message body rendered into the document appears there
HTML-escaped with newlines turned into `<br>`; the escaped text can never
contain a `<script>` tag (its only `<` characters open `<br>`), and a body
containing `<script>` shows up in the document only in its escaped form. -/
theorem c5_html_escaping (tz : Tz) (date : Ymd) (rows : List Row)
    (p : List Char × ConvData) (hp : p ∈ renderOrder (utcWindows tz date) rows)
    (r : Row) (hr : r ∈ p.2.prev ++ p.2.current ++ p.2.next) :
    escapeNl r.text <:+: finalDoc tz date rows ∧
    hasSub scriptTag (escapeNl r.text) = false ∧
    (hasSub scriptTag r.text = true → escapeNl scriptTag <:+: finalDoc tz date rows) := by
  have hmsg : ∃ l, (l = p.2.prev ∨ l = p.2.current ∨ l = p.2.next) ∧ r ∈ l := by
    rcases List.mem_append.mp hr with h | h
    · rcases List.mem_append.mp h with h | h
      · exact ⟨p.2.prev, Or.inl rfl, h⟩
      · exact ⟨p.2.current, Or.inr (Or.inl rfl), h⟩
    · exact ⟨p.2.next, Or.inr (Or.inr rfl), h⟩
  have hchain : escapeNl r.text <:+: finalDoc tz date rows := by
    rcases hmsg with ⟨l, hl, hrl⟩
    have hin_msgs : escapeNl r.text <:+: msgsHtml tz l := by
      have hdisp : formatMessage tz r ∈ formatMessages tz l :=
        List.mem_map.mpr ⟨r, hrl, rfl⟩
      have hm1 : (formatMessage tz r).text <:+: messageHtml (formatMessage tz r) :=
        text_infix_messageHtml _
      have hm2 : messageHtml (formatMessage tz r) <:+: msgsHtml tz l :=
        infix_flatten_of_mem messageHtml (formatMessages tz l) _ hdisp
      exact infixTrans _ _ _ hm1 hm2
    have hbuck := bucket_html_infix_conv tz (hrDate date)
      (hrDate (civilFromDays (daysFromCivil date - 1)))
      (hrDate (civilFromDays (daysFromCivil date + 1))) p
    have hconv : escapeNl r.text <:+: convHtml tz (hrDate date)
        (hrDate (civilFromDays (daysFromCivil date - 1)))
        (hrDate (civilFromDays (daysFromCivil date + 1))) p := by
      rcases hl with h | h | h
      · rw [h] at hin_msgs
        exact infixTrans _ _ _ hin_msgs hbuck.1
      · rw [h] at hin_msgs
        exact infixTrans _ _ _ hin_msgs hbuck.2.1
      · rw [h] at hin_msgs
        exact infixTrans _ _ _ hin_msgs hbuck.2.2
    exact infixTrans _ _ _ hconv (convsHtml_infix_doc tz date rows p hp)
  refine ⟨hchain, ?_, ?_⟩
  · rw [show scriptTag = ltChar :: sChar :: "cript>".data from by decide]
    exact not_hasSub_lts _ _ (goodLt_escapeNl r.text)
  · intro h
    have hinf : scriptTag <:+: r.text := (hasSub_iff scriptTag r.text).mp h
    have h2 : escapeNl scriptTag <:+: escapeNl r.text := escapeNl_infix_mono _ _ hinf
    exact infixTrans _ _ _ h2 hchain

def wText5 : List Char := "<script>alert(1)</script>\nhi there".data

def wRow5 : Row :=
  { contact_name := wContactA,
    timestamp := mexTz.localToUTC (startLocalOf dstDate) + 30,
    from_me := false, sender_name := strThem, text := wText5 }

def wConv5 : List Char × ConvData :=
  (wContactA, { prev := [], current := [wRow5], next := [],
                firstCurrent := some wRow5.timestamp })

/-- Witness for C5: a body with a `<script>` tag and a newline. -/
theorem c5_html_escaping_witness :
    (wConv5 ∈ renderOrder (utcWindows mexTz dstDate) [wRow5] ∧
      wRow5 ∈ wConv5.2.prev ++ wConv5.2.current ++ wConv5.2.next) ∧
    escapeNl wText5 <:+: finalDoc mexTz dstDate [wRow5] ∧
    hasSub scriptTag (escapeNl wText5) = false :=
  ⟨⟨by decide, by decide⟩,
   (c5_html_escaping mexTz dstDate [wRow5] wConv5 (by decide) wRow5 (by decide)).1,
   (c5_html_escaping mexTz dstDate [wRow5] wConv5 (by decide) wRow5 (by decide)).2.1⟩
